import Mathlib

/-!
# Redsync: a Redlock mutex over several Redis instances

A shallow embedding of `mutex.go`, `redis.go` and `redsync.go`.

* Stateful code is written in explicit state-passing style over a world `W`.
  Everything the Go code calls outside the repository (the clock, `time.Sleep`,
  `crypto/rand`, a Redis connection) is a field of `Env W C`, so a theorem
  stated for every `Env` holds for every sequence of instance replies and clock
  readings.
* `World` / `redisEnv` is one concrete environment: Redis instances with
  key expiry, a shared clock, a per-command latency, unreachable instances and
  an entropy source.  The two Lua scripts of `mutex.go` are embedded there.
* `traced E` records every external call that the code makes.

Durations are integer nanoseconds (`time.Duration`), instants are integer
nanoseconds on the monotonic clock.  `sync.Mutex` (`nodem`) only serialises
callers of one `Mutex` value and is not modelled: every operation runs
to completion.
-/

namespace Redlock

/-! ## Time -/

/-- Go `time.Duration`: a signed count of nanoseconds. -/
abbrev Duration := Int

/-- Go `time.Time` as read from the monotonic clock, in nanoseconds. -/
abbrev Time := Int

def Millisecond : Duration := 1000000

def Second : Duration := 1000 * Millisecond

/-- Two's complement wrap-around of `int64` arithmetic. -/
def wrapInt64 (x : Int) : Int := (x + 2 ^ 63) % 2 ^ 64 - 2 ^ 63

/-! ## Values handed back by the Redis client library -/

/-- Dynamic Go values that a redigo reply can hold as `interface{}`.
`int` is the dynamic type of an untyped integer constant converted to
`interface{}`; redigo itself delivers Redis integers as `int64`. -/
inductive GoValue where
  | nil
  | int (n : Int)
  | int64 (n : Int)
  | string (s : String)
  | bytes (s : String)
  deriving DecidableEq, Repr

/-- Go pair `(reply interface{}, err error)`: `Except.error` when `err != nil`. -/
abbrev Reply := Except String GoValue

/-- redigo `redis.String(reply, err)`. -/
def redisString : Reply → Except String String
  | .error e => .error e
  | .ok (.bytes s) => .ok s
  | .ok (.string s) => .ok s
  | .ok .nil => .error "redigo: nil returned"
  | .ok _ => .error "redigo: unexpected type for String"

/-- Commands that the mutex sends over a connection. -/
inductive Command where
  /-- `SET key value NX PX px` -/
  | setNX (key value : String) (px : Int)
  /-- `deleteScript` with `KEYS[1] = key`, `ARGV[1] = arg` -/
  | evalDelete (key arg : String)
  /-- `touchScript` with `KEYS[1] = key`, `ARGV[1] = arg`, `ARGV[2] = px` -/
  | evalTouch (key arg : String) (px : Int)
  deriving DecidableEq, Repr

/-- Errors returned by `Lock`. `ErrFailed` is the package's sentinel error
(declared outside the three source files); `rand` carries the error
of `crypto/rand`. -/
inductive Error where
  | ErrFailed
  | rand (msg : String)
  deriving DecidableEq, Repr

/-- Everything outside the repository that the code calls, over a world `W`
and connection pools `C` (`RedisConnWrapper`).
* `now` is `time.Now()`, `sleep` is `time.Sleep`;
* `randRead n` is `rand.Read` on a buffer of `n` bytes: the bytes written and the error;
* `exec c cmd` is `connWrapper.Get()` followed by the command on that connection. -/
structure Env (W C : Type) where
  now : W → Time × W
  sleep : Duration → W → W
  randRead : Nat → W → (List Nat × Option String) × W
  exec : C → Command → W → Reply × W

/-! ## `encoding/base64` -/

def base64Alphabet : List Char :=
  "ABCDEFGHIJKLMNOPQRSTUVWXYZabcdefghijklmnopqrstuvwxyz0123456789+/".toList

def base64Char (n : Nat) : Char := base64Alphabet.getD n 'A'

/-- Standard base64 with padding, three bytes to four characters. -/
def base64Chars : List Nat → List Char
  | [] => []
  | [a] => [base64Char (a / 4), base64Char (a % 4 * 16), '=', '=']
  | [a, b] => [base64Char (a / 4), base64Char (a % 4 * 16 + b / 16), base64Char (b % 16 * 4), '=']
  | a :: b :: c :: rest =>
    base64Char (a / 4) :: base64Char (a % 4 * 16 + b / 16) ::
      base64Char (b % 16 * 4 + c / 64) :: base64Char (c % 64) :: base64Chars rest

/-- Go `base64.StdEncoding.EncodeToString`. -/
def EncodeToString (b : List Nat) : String := String.mk (base64Chars b)

/-- Contents of a byte buffer of length `n` (initially zero) after `written` was
copied into it. -/
def fillBuffer (n : Nat) (written : List Nat) : List Nat :=
  ((written.map (fun x => x % 256)) ++ List.replicate n 0).take n

/-! ## `mutex.go` -/

/-- A Mutex is a distributed mutual exclusion lock. -/
structure Mutex (C : Type) where
  name : String
  expiry : Duration
  tries : Int
  delay : Duration
  factor : ℚ
  quorum : Int
  value : String
  /-- the field `until` of the source (a reserved word here) -/
  until_ : Time
  connWrappers : List C

variable {W C : Type}

/-- Go `(m *Mutex) genValue`: 32 random bytes, base64 encoded. -/
def genValue (E : Env W C) (w : W) : (String × Option Error) × W :=
  let r := E.randRead 32 w
  match r.1.2 with
  | some e => (("", some (Error.rand e)), r.2)
  | none => ((EncodeToString (fillBuffer 32 r.1.1), none), r.2)

/-- Expiry in whole milliseconds: `int(m.expiry/time.Millisecond)`. -/
def expiryMillis (m : Mutex C) : Int := Int.tdiv m.expiry Millisecond

/-- Go `(m *Mutex) acquire`. -/
def acquire (E : Env W C) (m : Mutex C) (connWrapper : C) (value : String) (w : W) : Bool × W :=
  let r := E.exec connWrapper (Command.setNX m.name value (expiryMillis m)) w
  match redisString r.1 with
  | .ok reply => (reply == "OK", r.2)
  | .error _ => (false, r.2)

/-- Go `(m *Mutex) release`: `err == nil && status != 0`, where `status` is an
`interface{}` and `0` converts to the Go type `int`. -/
def release (E : Env W C) (m : Mutex C) (connWrapper : C) (value : String) (w : W) : Bool × W :=
  let r := E.exec connWrapper (Command.evalDelete m.name value) w
  match r.1 with
  | .ok status => (status != GoValue.int 0, r.2)
  | .error _ => (false, r.2)

/-- Go `(m *Mutex) touch`. -/
def touch (E : Env W C) (m : Mutex C) (connWrapper : C) (value : String) (expiry : Int) (w : W) :
    Bool × W :=
  let r := E.exec connWrapper (Command.evalTouch m.name value expiry) w
  match redisString r.1 with
  | .ok status => (status != "ERR", r.2)
  | .error _ => (false, r.2)

/-- The loop `n := 0; for _, connWrapper := range conns { ok := f(connWrapper); if ok { n++ } }`
started with counter `n`. -/
def fanOut (f : C → W → Bool × W) : List C → Nat → W → Nat × W
  | [], n, w => (n, w)
  | c :: cs, n, w =>
    let r := f c w
    fanOut f cs (if r.1 then n + 1 else n) r.2

/-- Clock drift allowance `time.Duration(int64(float64(m.expiry)*m.factor))`: the product
truncated toward zero.  The factor is taken as an exact rational; the rounding of
`float64` is not modelled. -/
def drift (m : Mutex C) : Duration := Int.tdiv (m.expiry * m.factor.num) m.factor.den

/-- The deadline of line 57,
`time.Now().Add(m.expiry - time.Now().Sub(start) - drift + 2*time.Millisecond)`,
where `t1` and `t2` are the two clock readings in evaluation order. -/
def untilOf (m : Mutex C) (start t1 t2 : Time) : Time :=
  t1 + wrapInt64 (m.expiry - (t2 - start) - drift m + 2 * Millisecond)

/-- What one iteration of the loop in `Lock` observes up to its `if`. -/
structure Attempt (W : Type) where
  /-- `start := time.Now()` -/
  start : Time
  /-- number of instances for which `acquire` returned true -/
  n : Nat
  /-- the computed deadline `until` -/
  until_ : Time
  /-- the clock reading of `time.Now().Before(until)`, taken only when `n >= m.quorum` -/
  check : Option Time
  /-- `n >= m.quorum && time.Now().Before(until)` -/
  ok : Bool
  world : W

/-- Lines 47 to 58 of `Lock`: one iteration from `start := time.Now()` up to the evaluation
of the `if` condition. -/
def tryBody (E : Env W C) (m : Mutex C) (value : String) (w : W) : Attempt W :=
  let s := E.now w
  let a := fanOut (fun c => acquire E m c value) m.connWrappers 0 s.2
  let t1 := E.now a.2
  let t2 := E.now t1.2
  let u := untilOf m s.1 t1.1 t2.1
  if (a.1 : Int) ≥ m.quorum then
    let t3 := E.now t2.2
    { start := s.1, n := a.1, until_ := u, check := some t3.1, ok := decide (t3.1 < u), world := t3.2 }
  else
    { start := s.1, n := a.1, until_ := u, check := none, ok := false, world := t2.2 }

/-- Lines 43 to 58 of `Lock`: iteration `i`, which first sleeps unless `i` is 0. -/
def tryOnce (E : Env W C) (m : Mutex C) (value : String) (i : Nat) (w : W) : Attempt W :=
  tryBody E m value (if i ≠ 0 then E.sleep m.delay w else w)

/-- Lines 63 to 65 of `Lock`: `release` on every instance, results ignored. -/
def rollback (E : Env W C) (m : Mutex C) (value : String) (w : W) : W :=
  (fanOut (fun c => release E m c value) m.connWrappers 0 w).2

/-- The `for i := 0; i < m.tries; i++` loop of `Lock` with `remaining = m.tries - i`
iterations left. -/
def lockLoop (E : Env W C) (m : Mutex C) (value : String) :
    Nat → Nat → W → Option Error × Mutex C × W
  | 0, _, w => (some Error.ErrFailed, m, w)
  | remaining + 1, i, w =>
    let a := tryOnce E m value i w
    if a.ok then
      (none, { m with value := value, until_ := a.until_ }, a.world)
    else
      lockLoop E m value remaining (i + 1) (rollback E m value a.world)

/-- Go `(m *Mutex) Lock`: the returned error (`none` is `nil`), the mutex and the world
afterwards. -/
def Lock (E : Env W C) (m : Mutex C) (w : W) : Option Error × Mutex C × W :=
  let g := genValue E w
  match g.1.2 with
  | some err => (some err, m, g.2)
  | none => lockLoop E m g.1.1 m.tries.toNat 0 g.2

/-- Go `(m *Mutex) Unlock`. -/
def Unlock (E : Env W C) (m : Mutex C) (w : W) : Bool × Mutex C × W :=
  let r := fanOut (fun c => release E m c m.value) m.connWrappers 0 w
  (decide ((r.1 : Int) ≥ m.quorum), m, r.2)

/-- Go `(m *Mutex) Extend`. -/
def Extend (E : Env W C) (m : Mutex C) (w : W) : Bool × Mutex C × W :=
  let r := fanOut (fun c => touch E m c m.value (expiryMillis m)) m.connWrappers 0 w
  (decide ((r.1 : Int) ≥ m.quorum), m, r.2)

/-- World reached from `w` after `k` iterations of the loop of `Lock`, numbered from `i`,
none of which returned. -/
def afterFailures (E : Env W C) (m : Mutex C) (value : String) : Nat → Nat → W → W
  | _, 0, w => w
  | i, k + 1, w => afterFailures E m value (i + 1) k (rollback E m value (tryOnce E m value i w).world)

/-- Iteration `k` (counted from 0) of the loop of a `Lock` call whose token is `value` and
whose first iteration starts in world `w`. -/
def attemptAt (E : Env W C) (m : Mutex C) (value : String) (w : W) (k : Nat) : Attempt W :=
  tryOnce E m value k (afterFailures E m value 0 k w)

/-! ## `redsync.go` -/

/-- Redsync provides a simple method for creating distributed mutexes using multiple Redis
connection pools. -/
structure Redsync (C : Type) where
  connWrappers : List C

/-- New creates and returns a new Redsync instance from given Redis connection pools. -/
def New (connWrappers : List C) : Redsync C := { connWrappers := connWrappers }

/-- OptionFunc is a function that configures a mutex. -/
abbrev OptionFunc (C : Type) := Mutex C → Mutex C

/-- SetExpiry can be used to set the expiry of a mutex to the given value. -/
def SetExpiry (expiry : Duration) : OptionFunc C := fun m => { m with expiry := expiry }

/-- SetTries can be used to set the number of times lock acquire is attempted. -/
def SetTries (tries : Int) : OptionFunc C := fun m => { m with tries := tries }

/-- SetRetryDelay can be used to set the amount of time to wait between retries. -/
def SetRetryDelay (delay : Duration) : OptionFunc C := fun m => { m with delay := delay }

/-- SetDriftFactor can be used to set the clock drift factor. -/
def SetDriftFactor (factor : ℚ) : OptionFunc C := fun m => { m with factor := factor }

/-- NewMutex returns a new distributed mutex with given name. The fields `value` and `until`
start as Go zero values. -/
def NewMutex (r : Redsync C) (name : String) (options : List (OptionFunc C)) : Mutex C :=
  options.foldl (fun m o => o m)
    { name := name
      expiry := 8 * Second
      tries := 32
      delay := 500 * Millisecond
      factor := mkRat 1 100
      quorum := (r.connWrappers.length : Int) / 2 + 1
      value := ""
      until_ := 0
      connWrappers := r.connWrappers }

/-- The closed set of options of `redsync.go`: its four setters. -/
inductive Setter where
  | expiry (d : Duration)
  | tries (n : Int)
  | retryDelay (d : Duration)
  | driftFactor (f : ℚ)
  deriving DecidableEq, Repr

/-- The option built by a setter. -/
def Setter.option : Setter → OptionFunc C
  | Setter.expiry d => SetExpiry d
  | Setter.tries n => SetTries n
  | Setter.retryDelay d => SetRetryDelay d
  | Setter.driftFactor f => SetDriftFactor f

def Setter.isExpiry : Setter → Bool
  | Setter.expiry _ => true
  | _ => false

def Setter.isTries : Setter → Bool
  | Setter.tries _ => true
  | _ => false

def Setter.isRetryDelay : Setter → Bool
  | Setter.retryDelay _ => true
  | _ => false

def Setter.isDriftFactor : Setter → Bool
  | Setter.driftFactor _ => true
  | _ => false

/-! ## Recording the calls made to the environment -/

/-- One call from the code to its environment. -/
inductive Event (C : Type) where
  | now (t : Time)
  | sleep (d : Duration)
  | rand (n : Nat)
  | cmd (c : C) (command : Command)
  deriving DecidableEq, Repr

/-- The environment `E` with a log: every call behaves as in `E` and is appended to the log. -/
def traced (E : Env W C) : Env (W × List (Event C)) C where
  now := fun s => ((E.now s.1).1, ((E.now s.1).2, s.2 ++ [Event.now (E.now s.1).1]))
  sleep := fun d s => (E.sleep d s.1, s.2 ++ [Event.sleep d])
  randRead := fun n s => ((E.randRead n s.1).1, ((E.randRead n s.1).2, s.2 ++ [Event.rand n]))
  exec := fun c command s =>
    ((E.exec c command s.1).1, ((E.exec c command s.1).2, s.2 ++ [Event.cmd c command]))

/-- The compare-and-delete of `name` under `value` sent to each of `conns`, in order. -/
def deleteEvents (name value : String) (conns : List C) : List (Event C) :=
  conns.map (fun c => Event.cmd c (Command.evalDelete name value))

/-- The compare-and-reset-expiry of `name` under `value` sent to each of `conns`, in order. -/
def touchEvents (name value : String) (px : Int) (conns : List C) : List (Event C) :=
  conns.map (fun c => Event.cmd c (Command.evalTouch name value px))

/-- Holds of an event that is a compare-and-delete. -/
def Event.isDelete : Event C → Bool
  | Event.cmd _ (Command.evalDelete _ _) => true
  | _ => false

/-! ## A Redis instance -/

/-- A key held by an instance: its value and its expiry instant. As in Redis, the key is
expired once the clock is past `expireAt`. -/
structure Entry where
  key : String
  value : String
  expireAt : Time
  deriving DecidableEq, Repr

/-- The keyspace of one instance. Only the first entry of a key counts. -/
abbrev Store := List Entry

/-- Replies of a Redis server. -/
inductive Resp where
  | status (s : String)
  | error (msg : String)
  | integer (n : Int)
  | bulk (s : String)
  | nilBulk
  deriving DecidableEq, Repr

/-- The `NX` and `XX` conditions of `SET`. -/
inductive SetCond where
  | NX
  | XX
  deriving DecidableEq, Repr

/-- The entry of `key` if it exists at instant `now`. -/
def Store.live (now : Time) (s : Store) (key : String) : Option Entry :=
  match s.find? (fun e => e.key == key) with
  | some e => if now ≤ e.expireAt then some e else none
  | none => none

/-- Redis `GET key`. -/
def Store.GET (now : Time) (s : Store) (key : String) : Resp :=
  match Store.live now s key with
  | some e => Resp.bulk e.value
  | none => Resp.nilBulk

/-- Redis `DEL key`: the number of keys removed. -/
def Store.DEL (now : Time) (s : Store) (key : String) : Resp × Store :=
  match Store.live now s key with
  | some _ => (Resp.integer 1, s.filter (fun e => e.key != key))
  | none => (Resp.integer 0, s)

/-- Redis `SET key value NX|XX PX px`. -/
def Store.SET (now : Time) (s : Store) (key value : String) (cond : SetCond) (px : Int) :
    Resp × Store :=
  if px ≤ 0 then (Resp.error "ERR invalid expire time in set", s)
  else if (Store.live now s key).isSome = (cond == SetCond.XX) then
    (Resp.status "OK",
      { key := key, value := value, expireAt := now + px * Millisecond } ::
        s.filter (fun e => e.key != key))
  else (Resp.nilBulk, s)

/-- The Lua `deleteScript` of `mutex.go`, run atomically at instant `now`.
A Lua number is returned to the client as an integer reply. -/
def deleteScript (now : Time) (key arg : String) (s : Store) : Resp × Store :=
  if Store.GET now s key = Resp.bulk arg then Store.DEL now s key
  else (Resp.integer 0, s)

/-- The Lua `touchScript` of `mutex.go`, run atomically at instant `now`.
A Lua string is returned to the client as a bulk reply; the reply of `SET` (or its
error) is passed on. -/
def touchScript (now : Time) (key arg : String) (px : Int) (s : Store) : Resp × Store :=
  if Store.GET now s key = Resp.bulk arg then Store.SET now s key arg SetCond.XX px
  else (Resp.bulk "ERR", s)

/-- An instance serving one command at instant `now`. -/
def serve (now : Time) (s : Store) : Command → Resp × Store
  | Command.setNX key value px => Store.SET now s key value SetCond.NX px
  | Command.evalDelete key arg => deleteScript now key arg s
  | Command.evalTouch key arg px => touchScript now key arg px s

/-- How redigo hands a server reply to Go: simple strings as `string`, bulk strings as
`[]byte`, integers as `int64`, a missing value as nil and an error reply as `err`. -/
def toReply : Resp → Reply
  | Resp.status s => Except.ok (GoValue.string s)
  | Resp.error msg => Except.error msg
  | Resp.integer n => Except.ok (GoValue.int64 n)
  | Resp.bulk s => Except.ok (GoValue.bytes s)
  | Resp.nilBulk => Except.ok GoValue.nil

/-- A deterministic world: one clock shared by the client and the instances, instance `c`
holding `stores[c]`, every command taking `latency`, the instances listed in `down` being
unreachable, and `entropy` holding the successive outcomes of `rand.Read`
(`none` for a failure). -/
structure World where
  clock : Time
  latency : Duration
  stores : List Store
  down : List Nat
  entropy : List (Option (List Nat))
  deriving DecidableEq, Repr

/-- A command sent to instance `c`. -/
def World.exec (c : Nat) (command : Command) (w : World) : Reply × World :=
  if c ∈ w.down then
    (Except.error "dial tcp: connection refused", { w with clock := w.clock + w.latency })
  else
    match w.stores[c]? with
    | none => (Except.error "dial tcp: no such host", { w with clock := w.clock + w.latency })
    | some s =>
      (toReply (serve w.clock s command).1,
        { w with stores := w.stores.set c (serve w.clock s command).2,
                 clock := w.clock + w.latency })

/-- `rand.Read` takes the next outcome of `entropy`. -/
def World.randRead (_n : Nat) (w : World) : (List Nat × Option String) × World :=
  match w.entropy with
  | some bytes :: rest => ((bytes, none), { w with entropy := rest })
  | none :: rest => (([], some "entropy source unavailable"), { w with entropy := rest })
  | [] => (([], some "entropy source unavailable"), w)

/-- The world as an environment: connection pool `c` reaches instance `c`. -/
def redisEnv : Env World Nat where
  now := fun w => (w.clock, w)
  sleep := fun d w => { w with clock := w.clock + max d 0 }
  randRead := World.randRead
  exec := World.exec

/-! ## Notions used to state the properties -/

/-- The results of the successive calls `f c` of the loop `fanOut`, in the order of `conns`. -/
def fanOutResults (f : C → W → Bool × W) : List C → W → List Bool
  | [], _ => []
  | c :: cs, w => (f c w).1 :: fanOutResults f cs (f c w).2

/-- Events that an iteration of the loop of `Lock` may emit before its `if`: clock readings,
a sleep, and `SET name value NX PX` to a listed instance. -/
def attemptEvent (m : Mutex C) (value : String) (e : Event C) : Prop :=
  (∃ t, e = Event.now t) ∨ e = Event.sleep m.delay ∨
    ∃ c, c ∈ m.connWrappers ∧ e = Event.cmd c (Command.setNX m.name value (expiryMillis m))

/-- Mutex `m2` has the name, the configuration, the quorum and the instance list of `m1`. -/
def sameConfig (m1 m2 : Mutex C) : Prop :=
  m2.name = m1.name ∧ m2.expiry = m1.expiry ∧ m2.tries = m1.tries ∧ m2.delay = m1.delay ∧
    m2.factor = m1.factor ∧ m2.quorum = m1.quorum ∧ m2.connWrappers = m1.connWrappers

/-- Holds of a call to `time.Sleep`. -/
def Event.isSleep : Event C → Bool
  | Event.sleep _ => true
  | _ => false

/-- Holds of a call to `rand.Read`. -/
def Event.isRand : Event C → Bool
  | Event.rand _ => true
  | _ => false

/-- Holds of a command sent to an instance. -/
def Event.isCmd : Event C → Bool
  | Event.cmd _ _ => true
  | _ => false

/-- Number of calls to `time.Sleep` in a log. -/
def sleepCount (log : List (Event C)) : Nat := log.countP Event.isSleep

/-- The calls made by iteration `i` of the loop of `Lock` up to its `if`, started in world
`w`. -/
def attemptLog (E : Env W C) (m : Mutex C) (value : String) (i : Nat) (w : W) :
    List (Event C) :=
  (tryOnce (traced E) m value i (w, [])).world.2

/-- The calls made by `k` successive iterations of the loop of `Lock`, numbered from `i` and
started in world `w`, none of which returns: one list per iteration, holding the calls up to
the `if` followed by the compare-and-delete sent to every instance. -/
def failedIterations (E : Env W C) (m : Mutex C) (value : String) :
    Nat → Nat → W → List (List (Event C))
  | _, 0, _ => []
  | i, k + 1, w =>
    (attemptLog E m value i w ++ deleteEvents m.name value m.connWrappers) ::
      failedIterations E m value (i + 1) k (rollback E m value (tryOnce E m value i w).world)

/-- Events that the loop of `Lock` may emit: those of `attemptEvent` and the
compare-and-delete of `m.name` under `value` to a listed instance. -/
def loopEvent (m : Mutex C) (value : String) (e : Event C) : Prop :=
  attemptEvent m value e ∨
    ∃ c, c ∈ m.connWrappers ∧ e = Event.cmd c (Command.evalDelete m.name value)

/-- Closed intervals `[a1, b1]` and `[a2, b2]` have an instant in common. -/
def overlap (a1 b1 a2 b2 : Time) : Prop := a1 ≤ b1 ∧ a2 ≤ b2 ∧ a2 ≤ b1 ∧ a1 ≤ b2

instance (a1 b1 a2 b2 : Time) : Decidable (overlap a1 b1 a2 b2) := by
  unfold overlap
  infer_instance

/-! ## Concrete runs -/

/-- Three reachable instances holding no key; every command takes 100 microseconds;
`rand.Read` succeeds twice. -/
def threeIdle : World :=
  { clock := 0
    latency := 100000
    stores := [[], [], []]
    down := []
    entropy := [some (List.range 32), some (List.replicate 32 7)] }

/-- `NewMutex("lock")` over three instances. -/
def defaultLock : Mutex Nat := NewMutex (New [0, 1, 2]) "lock" []

/-- `NewMutex("lock", SetExpiry(100*time.Millisecond))` over three instances. -/
def shortLock : Mutex Nat := NewMutex (New [0, 1, 2]) "lock" [SetExpiry (100 * Millisecond)]

/-- `NewMutex("lock")` over one instance. -/
def soloLock : Mutex Nat := NewMutex (New [0]) "lock" []

/-- One reachable instance on which `"lock"` is held under the token `"theirs"`. -/
def heldByOther : World :=
  { clock := 0
    latency := 100000
    stores := [[{ key := "lock", value := "theirs", expireAt := 8 * Second }]]
    down := []
    entropy := [] }

/-- One instance, unreachable, on which `"lock"` is held under the token `"mine"`. -/
def unreachable : World :=
  { clock := 0
    latency := 100000
    stores := [[{ key := "lock", value := "mine", expireAt := 8 * Second }]]
    down := [0]
    entropy := [some (List.range 32)] }

/-- No instance at all, and a source of randomness that fails. -/
def noEntropy : World :=
  { clock := 0
    latency := 100000
    stores := []
    down := []
    entropy := [none] }

/-- `NewMutex("lock")` from a factory without instances. -/
def emptyLock : Mutex Nat := NewMutex (New []) "lock" []

/-- `NewMutex("lock", SetTries(2))` over one instance. -/
def twoTries : Mutex Nat := NewMutex (New [0]) "lock" [SetTries 2]

/-- `NewMutex("lock", SetTries(0))` over three instances. -/
def noTries : Mutex Nat := NewMutex (New [0, 1, 2]) "lock" [SetTries 0]

/-- The mutex `defaultLock` after its successful `Lock` on `threeIdle`: it holds the token
of that call. -/
def lockedLock : Mutex Nat := (Lock redisEnv defaultLock threeIdle).2.1

/-- The world after that `Lock`, in which instances 1 and 2 have become unreachable. -/
def twoDownAfterLock : World :=
  { (Lock redisEnv defaultLock threeIdle).2.2 with down := [1, 2] }

/-! ## Theorems -/

theorem tryOnce_ok_iff (E : Env W C) (m : Mutex C) (value : String) (i : Nat) (w : W) :
    (tryOnce E m value i w).ok = true ↔
      ((tryOnce E m value i w).n : Int) ≥ m.quorum ∧
        ∃ t, (tryOnce E m value i w).check = some t ∧ t < (tryOnce E m value i w).until_ := by
  unfold tryOnce
  generalize (if i ≠ 0 then E.sleep m.delay w else w) = w1
  unfold tryBody
  dsimp only
  split <;> simp_all

theorem lockLoop_nil_iff (E : Env W C) (m : Mutex C) (value : String) (r : Nat) :
    ∀ (i : Nat) (w : W), (lockLoop E m value r i w).1 = none ↔
      ∃ k, k < r ∧ (tryOnce E m value (i + k) (afterFailures E m value i k w)).ok = true := by
  induction r with
  | zero => intro i w; simp [lockLoop]
  | succ r ih =>
    intro i w
    rw [lockLoop]
    by_cases h : (tryOnce E m value i w).ok = true
    · simp only [h, if_true, true_iff]
      exact ⟨0, Nat.succ_pos r, by simpa [afterFailures] using h⟩
    · simp only [h, Bool.false_eq_true, if_false]
      rw [ih]
      constructor
      · rintro ⟨k, hk, hok⟩
        refine ⟨k + 1, Nat.succ_lt_succ hk, ?_⟩
        rw [afterFailures, ← Nat.add_assoc, Nat.add_right_comm]
        simpa [Nat.add_comm, Nat.add_left_comm] using hok
      · rintro ⟨k, hk, hok⟩
        cases k with
        | zero => exact absurd (by simpa [afterFailures] using hok) h
        | succ k =>
          refine ⟨k, Nat.lt_of_succ_lt_succ hk, ?_⟩
          rw [afterFailures] at hok
          simpa [Nat.add_comm, Nat.add_left_comm, Nat.add_assoc] using hok

/-- C1: `Lock` returns nil exactly when the token was generated and some iteration
`k < m.tries` of its loop counts at least `m.quorum` confirmed `SET NX PX` and reads, at the
check, a clock strictly before the deadline computed in that iteration; in every other case
it returns an error. -/
theorem Lock_nil_iff (E : Env W C) (m : Mutex C) (w : W) :
    ((Lock E m w).1 = none ↔
      (genValue E w).1.2 = none ∧
        ∃ k : Nat, (k : Int) < m.tries ∧
          ((attemptAt E m (genValue E w).1.1 (genValue E w).2 k).n : Int) ≥ m.quorum ∧
          ∃ t, (attemptAt E m (genValue E w).1.1 (genValue E w).2 k).check = some t ∧
            t < (attemptAt E m (genValue E w).1.1 (genValue E w).2 k).until_) ∧
    ((Lock E m w).1 ≠ none → ∃ e, (Lock E m w).1 = some e) := by
  refine ⟨?_, fun h => Option.ne_none_iff_exists'.mp h⟩
  unfold Lock
  dsimp only
  cases hg : (genValue E w).1.2 with
  | some e => simp
  | none =>
    simp only [true_and]
    rw [lockLoop_nil_iff]
    constructor
    · rintro ⟨k, hk, hok⟩
      refine ⟨k, by omega, ?_⟩
      rw [Nat.zero_add] at hok
      exact (tryOnce_ok_iff E m _ k _).mp hok
    · rintro ⟨k, hk, hq⟩
      refine ⟨k, by omega, ?_⟩
      rw [Nat.zero_add]
      exact (tryOnce_ok_iff E m _ k _).mpr hq

/-! ### The fan-out loop -/

theorem fanOut_count (f : C → W → Bool × W) :
    ∀ (cs : List C) (n : Nat) (w : W),
      (fanOut f cs n w).1 = n + (fanOutResults f cs w).count true := by
  intro cs
  induction cs with
  | nil => intro n w; simp [fanOut, fanOutResults]
  | cons c cs ih =>
    intro n w
    rw [fanOut, ih, fanOutResults]
    cases h : (f c w).1 <;> simp [Nat.add_assoc, Nat.add_comm]

theorem fanOutResults_length (f : C → W → Bool × W) :
    ∀ (cs : List C) (w : W), (fanOutResults f cs w).length = cs.length := by
  intro cs
  induction cs with
  | nil => intro w; rfl
  | cons c cs ih => intro w; simp [fanOutResults, ih]

theorem fanOut_invariant (f : C → W → Bool × W) (P : W → Prop) :
    ∀ (cs : List C), (∀ c ∈ cs, ∀ w, P w → P (f c w).2) →
      ∀ (n : Nat) (w : W), P w → P (fanOut f cs n w).2 := by
  intro cs
  induction cs with
  | nil => intro _ n w hw; simpa [fanOut] using hw
  | cons c cs ih =>
    intro h n w hw
    rw [fanOut]
    exact ih (fun d hd => h d (List.mem_cons_of_mem c hd)) _ _
      (h c (List.mem_cons_self c cs) w hw)

theorem fanOut_traced (f : C → W → Bool × W)
    (g : C → W × List (Event C) → Bool × (W × List (Event C))) (ev : C → Event C)
    (h : ∀ c w log, g c (w, log) = ((f c w).1, ((f c w).2, log ++ [ev c]))) :
    ∀ (cs : List C) (n : Nat) (w : W) (log : List (Event C)),
      fanOut g cs n (w, log) =
        ((fanOut f cs n w).1, ((fanOut f cs n w).2, log ++ cs.map ev)) := by
  intro cs
  induction cs with
  | nil => intro n w log; simp [fanOut]
  | cons c cs ih =>
    intro n w log
    rw [fanOut, h, fanOut]
    dsimp only
    rw [ih]
    simp

theorem acquire_traced (E : Env W C) (m : Mutex C) (value : String) (c : C) (w : W)
    (log : List (Event C)) :
    acquire (traced E) m c value (w, log) =
      ((acquire E m c value w).1, ((acquire E m c value w).2,
        log ++ [Event.cmd c (Command.setNX m.name value (expiryMillis m))])) := by
  unfold acquire traced
  dsimp only
  split <;> rfl

theorem release_traced (E : Env W C) (m : Mutex C) (value : String) (c : C) (w : W)
    (log : List (Event C)) :
    release (traced E) m c value (w, log) =
      ((release E m c value w).1, ((release E m c value w).2,
        log ++ [Event.cmd c (Command.evalDelete m.name value)])) := by
  unfold release traced
  dsimp only
  split <;> rfl

theorem touch_traced (E : Env W C) (m : Mutex C) (value : String) (px : Int) (c : C) (w : W)
    (log : List (Event C)) :
    touch (traced E) m c value px (w, log) =
      ((touch E m c value px w).1, ((touch E m c value px w).2,
        log ++ [Event.cmd c (Command.evalTouch m.name value px)])) := by
  unfold touch traced
  dsimp only
  split <;> rfl

theorem rollback_traced (E : Env W C) (m : Mutex C) (value : String) (w : W)
    (log : List (Event C)) :
    rollback (traced E) m value (w, log) =
      (rollback E m value w, log ++ deleteEvents m.name value m.connWrappers) := by
  unfold rollback deleteEvents
  rw [fanOut_traced (fun c => release E m c value) _
    (fun c => Event.cmd c (Command.evalDelete m.name value))
    (fun c w log => release_traced E m value c w log)]

theorem traced_now (E : Env W C) (w : W) (log : List (Event C)) :
    (traced E).now (w, log) = ((E.now w).1, ((E.now w).2, log ++ [Event.now (E.now w).1])) :=
  rfl

theorem traced_sleep (E : Env W C) (d : Duration) (w : W) (log : List (Event C)) :
    (traced E).sleep d (w, log) = (E.sleep d w, log ++ [Event.sleep d]) :=
  rfl

theorem tryBody_traced (E : Env W C) (m : Mutex C) (value : String) (w : W)
    (log : List (Event C)) :
    (tryBody (traced E) m value (w, log)).ok = (tryBody E m value w).ok ∧
    (tryBody (traced E) m value (w, log)).until_ = (tryBody E m value w).until_ ∧
    (tryBody (traced E) m value (w, log)).world.1 = (tryBody E m value w).world ∧
    ∃ evs, (tryBody (traced E) m value (w, log)).world.2 = log ++ evs ∧
      ∀ e ∈ evs, attemptEvent m value e := by
  unfold tryBody
  simp only [traced_now, fanOut_traced (fun c => acquire E m c value) _
    (fun c => Event.cmd c (Command.setNX m.name value (expiryMillis m)))
    (fun c w log => acquire_traced E m value c w log)]
  split
  · refine ⟨rfl, rfl, rfl, _, (List.append_assoc _ _ _).trans
      ((List.append_assoc _ _ _).trans ((List.append_assoc _ _ _).trans
        (List.append_assoc _ _ _))), ?_⟩
    intro e he
    simp only [List.mem_append, List.mem_map, List.mem_singleton] at he
    unfold attemptEvent
    rcases he with h | h | h | h | h
    · exact Or.inl ⟨_, h⟩
    · obtain ⟨c, hc, rfl⟩ := h
      exact Or.inr (Or.inr ⟨c, hc, rfl⟩)
    · exact Or.inl ⟨_, h⟩
    · exact Or.inl ⟨_, h⟩
    · exact Or.inl ⟨_, h⟩
  · refine ⟨rfl, rfl, rfl, _, (List.append_assoc _ _ _).trans
      ((List.append_assoc _ _ _).trans (List.append_assoc _ _ _)), ?_⟩
    intro e he
    simp only [List.mem_append, List.mem_map, List.mem_singleton] at he
    unfold attemptEvent
    rcases he with h | h | h | h
    · exact Or.inl ⟨_, h⟩
    · obtain ⟨c, hc, rfl⟩ := h
      exact Or.inr (Or.inr ⟨c, hc, rfl⟩)
    · exact Or.inl ⟨_, h⟩
    · exact Or.inl ⟨_, h⟩

theorem tryOnce_traced (E : Env W C) (m : Mutex C) (value : String) (i : Nat) (w : W)
    (log : List (Event C)) :
    (tryOnce (traced E) m value i (w, log)).ok = (tryOnce E m value i w).ok ∧
    (tryOnce (traced E) m value i (w, log)).until_ = (tryOnce E m value i w).until_ ∧
    (tryOnce (traced E) m value i (w, log)).world.1 = (tryOnce E m value i w).world ∧
    ∃ evs, (tryOnce (traced E) m value i (w, log)).world.2 = log ++ evs ∧
      ∀ e ∈ evs, attemptEvent m value e := by
  unfold tryOnce
  by_cases hi : i = 0
  · simp only [hi, ne_eq, not_true_eq_false, if_false]
    exact tryBody_traced E m value w log
  · simp only [hi, ne_eq, not_false_eq_true, if_true, traced_sleep]
    obtain ⟨h1, h2, h3, evs, h4, h5⟩ := tryBody_traced E m value (E.sleep m.delay w)
      (log ++ [Event.sleep m.delay])
    refine ⟨h1, h2, h3, Event.sleep m.delay :: evs, by simpa using h4, ?_⟩
    intro e he
    rcases List.mem_cons.mp he with h | h
    · exact Or.inr (Or.inl h)
    · exact h5 e h

theorem lockLoop_traced (E : Env W C) (m : Mutex C) (value : String) (r : Nat) :
    ∀ (i : Nat) (w : W) (log : List (Event C)),
      (lockLoop (traced E) m value r i (w, log)).1 = (lockLoop E m value r i w).1 ∧
      (lockLoop (traced E) m value r i (w, log)).2.1 = (lockLoop E m value r i w).2.1 ∧
      (lockLoop (traced E) m value r i (w, log)).2.2.1 = (lockLoop E m value r i w).2.2 := by
  induction r with
  | zero => intro i w log; exact ⟨rfl, rfl, rfl⟩
  | succ r ih =>
    intro i w log
    obtain ⟨h1, h2, h3, _⟩ := tryOnce_traced E m value i w log
    rw [lockLoop, lockLoop, h1]
    cases hok : (tryOnce E m value i w).ok with
    | true =>
      rw [if_pos rfl, if_pos rfl]
      exact ⟨rfl, by rw [h2], h3⟩
    | false =>
      rw [if_neg (by decide), if_neg (by decide)]
      have hr := rollback_traced E m value (tryOnce (traced E) m value i (w, log)).world.1
        (tryOnce (traced E) m value i (w, log)).world.2
      rw [Prod.mk.eta, h3] at hr
      rw [hr]
      exact ih _ _ _

theorem attemptEvent_not_delete (m : Mutex C) (value : String) (e : Event C)
    (h : attemptEvent m value e) : e.isDelete = false := by
  rcases h with ⟨t, rfl⟩ | rfl | ⟨c, _, rfl⟩ <;> rfl

/-- C2: with the default configuration and instances answering within 100 microseconds, `Lock`
succeeds with `start = 0` and stores the deadline `start + expiry - drift + 2ms` (7922 ms),
which is above `start + expiry - drift - 2ms` (7918 ms): the 2 ms are added. -/
theorem Lock_deadline_above_bound :
    (Lock redisEnv defaultLock threeIdle).1 = none ∧
    (attemptAt redisEnv defaultLock (genValue redisEnv threeIdle).1.1
        (genValue redisEnv threeIdle).2 0).start = 0 ∧
    drift defaultLock = 80 * Millisecond ∧
    (Lock redisEnv defaultLock threeIdle).2.1.until_ = 7922 * Millisecond ∧
    ¬ ((Lock redisEnv defaultLock threeIdle).2.1.until_ ≤
        0 + defaultLock.expiry - drift defaultLock - 2 * Millisecond) := by
  decide

/-- C3: two clients lock `"lock"` with expiry 100 ms on the same three instances, the second
one 100 ms after the first returned. Both calls succeed with different tokens, and the
second returns at 100.6 ms while the deadline of the first is 101 ms: the validity
intervals overlap. -/
theorem validity_intervals_overlap :
    (Lock redisEnv shortLock threeIdle).1 = none ∧
    (Lock redisEnv shortLock
      (redisEnv.sleep (100 * Millisecond) (Lock redisEnv shortLock threeIdle).2.2)).1 = none ∧
    (Lock redisEnv shortLock threeIdle).2.1.value ≠
      (Lock redisEnv shortLock
        (redisEnv.sleep (100 * Millisecond) (Lock redisEnv shortLock threeIdle).2.2)).2.1.value ∧
    (Lock redisEnv shortLock threeIdle).2.1.until_ = 101 * Millisecond ∧
    (Lock redisEnv shortLock
      (redisEnv.sleep (100 * Millisecond) (Lock redisEnv shortLock threeIdle).2.2)).2.2.clock
        = 100600000 ∧
    overlap
      (Lock redisEnv shortLock threeIdle).2.2.clock
      (Lock redisEnv shortLock threeIdle).2.1.until_
      (Lock redisEnv shortLock
        (redisEnv.sleep (100 * Millisecond) (Lock redisEnv shortLock threeIdle).2.2)).2.2.clock
      (Lock redisEnv shortLock
        (redisEnv.sleep (100 * Millisecond) (Lock redisEnv shortLock threeIdle).2.2)).2.1.until_ := by
  decide

/-- C4: `release` returns true although the script returned 0, both when the key is absent
and when it is held under another token; the instance is left as it was. -/
theorem release_true_on_script_zero :
    deleteScript 0 "lock" "mine" [] = (Resp.integer 0, []) ∧
    (release redisEnv defaultLock 0 "mine" threeIdle).1 = true ∧
    (release redisEnv defaultLock 0 "mine" threeIdle).2.stores = threeIdle.stores ∧
    (serve 0 [{ key := "lock", value := "theirs", expireAt := 8 * Second }]
      (Command.evalDelete "lock" "mine")).1 = Resp.integer 0 ∧
    (release redisEnv defaultLock 0 "mine" heldByOther).1 = true ∧
    (release redisEnv defaultLock 0 "mine" heldByOther).2.stores = heldByOther.stores := by
  decide

/-- C7: after a successful `Lock`, the first `Unlock` returns true and deletes the key on the
three instances; the second `Unlock` changes no instance and returns true as well. -/
theorem second_Unlock_returns_true :
    (Lock redisEnv defaultLock threeIdle).1 = none ∧
    (Unlock redisEnv (Lock redisEnv defaultLock threeIdle).2.1
      (Lock redisEnv defaultLock threeIdle).2.2).1 = true ∧
    (Unlock redisEnv (Lock redisEnv defaultLock threeIdle).2.1
      (Lock redisEnv defaultLock threeIdle).2.2).2.2.stores = [[], [], []] ∧
    (Unlock redisEnv (Lock redisEnv defaultLock threeIdle).2.1
      (Unlock redisEnv (Lock redisEnv defaultLock threeIdle).2.1
        (Lock redisEnv defaultLock threeIdle).2.2).2.2).1 = true ∧
    (Unlock redisEnv (Lock redisEnv defaultLock threeIdle).2.1
      (Unlock redisEnv (Lock redisEnv defaultLock threeIdle).2.1
        (Lock redisEnv defaultLock threeIdle).2.2).2.2).2.2.stores = [[], [], []] := by
  decide

theorem tryOnce_fail_iff (E : Env W C) (m : Mutex C) (value : String) (i : Nat) (w : W) :
    (tryOnce E m value i w).ok = false ↔
      ((tryOnce E m value i w).n : Int) < m.quorum ∨
        ∃ t, (tryOnce E m value i w).check = some t ∧ (tryOnce E m value i w).until_ ≤ t := by
  unfold tryOnce
  generalize (if i ≠ 0 then E.sleep m.delay w else w) = w1
  unfold tryBody
  dsimp only
  split
  · next h =>
    simp only [decide_eq_false_iff_not, not_lt, Option.some.injEq, exists_eq_left']
    exact ⟨Or.inr, fun h1 => h1.elim (fun h2 => absurd h2 (not_lt.mpr h)) id⟩
  · next h => simp only [reduceCtorEq, false_and, exists_false, or_false, true_iff]; omega

/-- C6: `Unlock` returns true exactly when the number of instances for which `release`
returned true is at least `m.quorum`; it calls `release` once per listed instance, sending
the compare-and-delete of `m.name` under `m.value` to each of them in order and nothing
else; its result and its effect on the world do not depend on `until`; and it leaves the
mutex as it was. -/
theorem Unlock_quorum (E : Env W C) (m : Mutex C) (w : W) :
    ((Unlock E m w).1 = true ↔
      ((fanOutResults (fun c => release E m c m.value) m.connWrappers w).count true : Int)
        ≥ m.quorum) ∧
    (fanOutResults (fun c => release E m c m.value) m.connWrappers w).length
      = m.connWrappers.length ∧
    (∀ log, (Unlock (traced E) m (w, log)).2.2.2
      = log ++ deleteEvents m.name m.value m.connWrappers) ∧
    (∀ log, (Unlock (traced E) m (w, log)).1 = (Unlock E m w).1 ∧
      (Unlock (traced E) m (w, log)).2.2.1 = (Unlock E m w).2.2) ∧
    (∀ u, (Unlock E { m with until_ := u } w).1 = (Unlock E m w).1 ∧
      (Unlock E { m with until_ := u } w).2.2 = (Unlock E m w).2.2) ∧
    (Unlock E m w).2.1 = m := by
  refine ⟨?_, fanOutResults_length _ _ _, ?_, ?_, fun u => ⟨rfl, rfl⟩, rfl⟩
  · unfold Unlock
    simp only [decide_eq_true_eq, fanOut_count, Nat.zero_add]
  · intro log
    unfold Unlock deleteEvents
    rw [fanOut_traced (fun c => release E m c m.value) _
      (fun c => Event.cmd c (Command.evalDelete m.name m.value))
      (fun c w log => release_traced E m m.value c w log)]
  · intro log
    unfold Unlock
    rw [fanOut_traced (fun c => release E m c m.value) _
      (fun c => Event.cmd c (Command.evalDelete m.name m.value))
      (fun c w log => release_traced E m m.value c w log)]
    exact ⟨rfl, rfl⟩

/-- C8: in iteration `i` of the loop of `Lock`, the part up to the `if` sends no
compare-and-delete (only clock readings, the sleep and `SET` to listed instances). When the
iteration does not commit (fewer than `m.quorum` confirmations, or the deadline not after the
clock reading), the compare-and-delete of `m.name` under that token is sent to every
listed instance, in order, and only then the loop goes on with the next iteration or
returns the error. When the iteration commits, `Lock` returns at once: nothing more is
sent. -/
theorem rollback_on_failure (E : Env W C) (m : Mutex C) (value : String) (r i : Nat) (w : W)
    (log : List (Event C)) :
    (∃ evs, (tryOnce (traced E) m value i (w, log)).world.2 = log ++ evs ∧
      ∀ e ∈ evs, attemptEvent m value e ∧ e.isDelete = false) ∧
    ((tryOnce (traced E) m value i (w, log)).ok = false ↔
      ((tryOnce (traced E) m value i (w, log)).n : Int) < m.quorum ∨
        ∃ t, (tryOnce (traced E) m value i (w, log)).check = some t ∧
          (tryOnce (traced E) m value i (w, log)).until_ ≤ t) ∧
    ((tryOnce (traced E) m value i (w, log)).ok = false →
      (rollback (traced E) m value (tryOnce (traced E) m value i (w, log)).world).2 =
        (tryOnce (traced E) m value i (w, log)).world.2 ++
          deleteEvents m.name value m.connWrappers ∧
      lockLoop (traced E) m value (r + 1) i (w, log) =
        lockLoop (traced E) m value r (i + 1)
          (rollback (traced E) m value (tryOnce (traced E) m value i (w, log)).world) ∧
      (lockLoop (traced E) m value 1 i (w, log)).1 = some Error.ErrFailed ∧
      (lockLoop (traced E) m value 1 i (w, log)).2.2.2 =
        (tryOnce (traced E) m value i (w, log)).world.2 ++
          deleteEvents m.name value m.connWrappers) ∧
    ((tryOnce (traced E) m value i (w, log)).ok = true →
      (lockLoop (traced E) m value (r + 1) i (w, log)).1 = none ∧
      (lockLoop (traced E) m value (r + 1) i (w, log)).2.2 =
        (tryOnce (traced E) m value i (w, log)).world) := by
  have hroll : (rollback (traced E) m value (tryOnce (traced E) m value i (w, log)).world).2 =
      (tryOnce (traced E) m value i (w, log)).world.2 ++
        deleteEvents m.name value m.connWrappers := by
    have := rollback_traced E m value (tryOnce (traced E) m value i (w, log)).world.1
      (tryOnce (traced E) m value i (w, log)).world.2
    rw [Prod.mk.eta] at this
    rw [this]
  refine ⟨?_, tryOnce_fail_iff (traced E) m value i (w, log), ?_, ?_⟩
  · obtain ⟨_, _, _, evs, h1, h2⟩ := tryOnce_traced E m value i w log
    exact ⟨evs, h1, fun e he => ⟨h2 e he, attemptEvent_not_delete m value e (h2 e he)⟩⟩
  · intro hok
    have hstep : ∀ r, lockLoop (traced E) m value (r + 1) i (w, log) =
        lockLoop (traced E) m value r (i + 1)
          (rollback (traced E) m value (tryOnce (traced E) m value i (w, log)).world) := by
      intro r
      rw [lockLoop]
      simp only [hok, Bool.false_eq_true, if_false]
    refine ⟨hroll, hstep r, ?_, ?_⟩
    · rw [hstep 0, lockLoop]
    · rw [hstep 0, lockLoop, hroll]
  · intro hok
    rw [lockLoop]
    simp only [hok, if_true, and_self]

/-- C9: `Extend` returns true exactly when the number of instances for which `touch`
returned true is at least `m.quorum`; it calls `touch` once per listed instance, sending the
compare-and-reset-expiry of `m.name` under `m.value` with the expiry in whole milliseconds
to each of them in order and nothing else; and it leaves every field of the mutex, among
them `value` and `until`, as it was. -/
theorem Extend_quorum (E : Env W C) (m : Mutex C) (w : W) :
    ((Extend E m w).1 = true ↔
      ((fanOutResults (fun c => touch E m c m.value (Int.tdiv m.expiry Millisecond))
        m.connWrappers w).count true : Int) ≥ m.quorum) ∧
    (fanOutResults (fun c => touch E m c m.value (Int.tdiv m.expiry Millisecond))
      m.connWrappers w).length = m.connWrappers.length ∧
    (∀ log, (Extend (traced E) m (w, log)).2.2.2
      = log ++ touchEvents m.name m.value (Int.tdiv m.expiry Millisecond) m.connWrappers) ∧
    (∀ log, (Extend (traced E) m (w, log)).1 = (Extend E m w).1 ∧
      (Extend (traced E) m (w, log)).2.2.1 = (Extend E m w).2.2) ∧
    (Extend E m w).2.1 = m := by
  refine ⟨?_, fanOutResults_length _ _ _, ?_, ?_, rfl⟩
  · unfold Extend expiryMillis
    simp only [decide_eq_true_eq, fanOut_count, Nat.zero_add]
  · intro log
    unfold Extend touchEvents expiryMillis
    rw [fanOut_traced (fun c => touch E m c m.value (Int.tdiv m.expiry Millisecond)) _
      (fun c => Event.cmd c (Command.evalTouch m.name m.value (Int.tdiv m.expiry Millisecond)))
      (fun c w log => touch_traced E m m.value _ c w log)]
  · intro log
    unfold Extend expiryMillis
    rw [fanOut_traced (fun c => touch E m c m.value (Int.tdiv m.expiry Millisecond)) _
      (fun c => Event.cmd c (Command.evalTouch m.name m.value (Int.tdiv m.expiry Millisecond)))
      (fun c w log => touch_traced E m m.value _ c w log)]
    exact ⟨rfl, rfl⟩

/-! ### Instances -/

theorem set_of_getElem? {α : Type} : ∀ (l : List α) (i : Nat) (a : α),
    l[i]? = some a → l.set i a = l := by
  intro l
  induction l with
  | nil => intro i a h; simp at h
  | cons x xs ih =>
    intro i a h
    cases i with
    | zero => simp at h; simp [h]
    | succ i => simp at h; simp [ih i a h]

theorem GET_eq_bulk_iff (now : Time) (s : Store) (key v : String) :
    Store.GET now s key = Resp.bulk v ↔ ∃ e, Store.live now s key = some e ∧ e.value = v := by
  unfold Store.GET
  cases h : Store.live now s key <;> simp

theorem live_mono (now later : Time) (s : Store) (key : String) (e : Entry)
    (hle : now ≤ later) (h : Store.live later s key = some e) : Store.live now s key = some e := by
  unfold Store.live at h ⊢
  cases hf : List.find? (fun e => e.key == key) s with
  | none => simp [hf] at h
  | some x =>
    simp only [hf] at h ⊢
    split at h
    · next hlt =>
      have : now ≤ x.expireAt := le_trans hle hlt
      simpa [this] using h
    · simp at h

theorem GET_ne_mono (now later : Time) (s : Store) (key v : String) (hle : now ≤ later)
    (h : Store.GET now s key ≠ Resp.bulk v) : Store.GET later s key ≠ Resp.bulk v := by
  intro h1
  obtain ⟨e, he, hv⟩ := (GET_eq_bulk_iff later s key v).mp h1
  exact h ((GET_eq_bulk_iff now s key v).mpr ⟨e, live_mono now later s key e hle he, hv⟩)

theorem deleteScript_of_ne (now : Time) (key arg : String) (s : Store)
    (h : Store.GET now s key ≠ Resp.bulk arg) :
    deleteScript now key arg s = (Resp.integer 0, s) := by
  unfold deleteScript
  rw [if_neg h]

theorem touchScript_of_ne (now : Time) (key arg : String) (px : Int) (s : Store)
    (h : Store.GET now s key ≠ Resp.bulk arg) :
    touchScript now key arg px s = (Resp.bulk "ERR", s) := by
  unfold touchScript
  rw [if_neg h]

theorem exec_clock (c : Nat) (command : Command) (w : World) :
    (World.exec c command w).2.clock = w.clock + w.latency ∧
    (World.exec c command w).2.latency = w.latency ∧
    (World.exec c command w).2.down = w.down := by
  unfold World.exec
  split
  · exact ⟨rfl, rfl, rfl⟩
  · split <;> exact ⟨rfl, rfl, rfl⟩

theorem exec_stores_of_serve (c : Nat) (command : Command) (w : World)
    (h : ∀ s, w.stores[c]? = some s → (serve w.clock s command).2 = s) :
    (World.exec c command w).2.stores = w.stores := by
  unfold World.exec
  split
  · rfl
  · split
    · rfl
    · next s hs =>
      dsimp only
      rw [h s hs]
      exact set_of_getElem? _ _ _ hs

theorem release_world (m : Mutex Nat) (c : Nat) (token : String) (w : World) :
    (release redisEnv m c token w).2 = (World.exec c (Command.evalDelete m.name token) w).2 := by
  unfold release redisEnv
  dsimp only
  split <;> rfl

theorem release_stores_of_ne (m : Mutex Nat) (c : Nat) (token : String) (w : World)
    (h : ∀ s, w.stores[c]? = some s → Store.GET w.clock s m.name ≠ Resp.bulk token) :
    (release redisEnv m c token w).2.stores = w.stores := by
  rw [release_world]
  apply exec_stores_of_serve
  intro s hs
  show (deleteScript w.clock m.name token s).2 = s
  rw [deleteScript_of_ne _ _ _ _ (h s hs)]

theorem deleteScript_integer (now : Time) (key arg : String) (s : Store) :
    ∃ n, (deleteScript now key arg s).1 = Resp.integer n := by
  unfold deleteScript Store.DEL
  split
  · split
    · exact ⟨1, rfl⟩
    · exact ⟨0, rfl⟩
  · exact ⟨0, rfl⟩

/-- On the instance model `release` returns true exactly when the instance answered: the
integer returned by the script does not enter the result. -/
theorem release_true_iff_answered (m : Mutex Nat) (c : Nat) (token : String) (w : World) :
    (release redisEnv m c token w).1 = true ↔ c ∉ w.down ∧ ∃ s, w.stores[c]? = some s := by
  by_cases hd : c ∈ w.down
  · simp [release, redisEnv, World.exec, hd]
  · cases hs : w.stores[c]? with
    | none => simp [release, redisEnv, World.exec, hd, hs]
    | some s =>
      obtain ⟨n, hn⟩ := deleteScript_integer w.clock m.name token s
      simp [release, redisEnv, World.exec, hd, hs, serve, hn, toReply]

/-- C5: a compare-and-delete whose token is not the value currently held under the key
(held under another value, absent or expired) returns 0 and leaves the keyspace as it was;
so does `release` on an instance; and, the clock not running backwards, `Unlock` of a mutex
whose token is held under its name on no listed instance leaves every instance as it
was. -/
theorem release_nonmatching_noop (m : Mutex Nat) (w : World) :
    (∀ (now : Time) (key token : String) (s : Store),
      Store.GET now s key ≠ Resp.bulk token →
        deleteScript now key token s = (Resp.integer 0, s)) ∧
    (∀ (c : Nat) (token : String),
      (∀ s, w.stores[c]? = some s → Store.GET w.clock s m.name ≠ Resp.bulk token) →
        (release redisEnv m c token w).2.stores = w.stores) ∧
    (0 ≤ w.latency →
      (∀ c ∈ m.connWrappers, ∀ s, w.stores[c]? = some s →
        Store.GET w.clock s m.name ≠ Resp.bulk m.value) →
      (Unlock redisEnv m w).2.2.stores = w.stores) := by
  refine ⟨fun now key token s h => deleteScript_of_ne now key token s h,
    fun c token h => release_stores_of_ne m c token w h, ?_⟩
  intro hl h
  unfold Unlock
  have hinv := fanOut_invariant (fun c => release redisEnv m c m.value)
    (fun v : World => v.stores = w.stores ∧ w.clock ≤ v.clock ∧ v.latency = w.latency)
    m.connWrappers (by
      intro c hc v ⟨hs, hc1, hl1⟩
      refine ⟨?_, ?_, ?_⟩
      · rw [← hs]
        apply release_stores_of_ne
        intro s hs1
        rw [hs] at hs1
        exact GET_ne_mono w.clock v.clock s m.name m.value hc1 (h c hc s hs1)
      · rw [release_world, (exec_clock c _ v).1, hl1]
        exact le_trans hc1 (le_add_of_nonneg_right hl)
      · rw [release_world, (exec_clock c _ v).2.1, hl1]) 0 w ⟨rfl, le_refl _, rfl⟩
  exact hinv.1

theorem find?_filter_ne (s : Store) (key k : String) (h : k ≠ key) :
    List.find? (fun e => e.key == k) (s.filter (fun e => e.key != key)) =
      List.find? (fun e => e.key == k) s := by
  induction s with
  | nil => rfl
  | cons x xs ih =>
    by_cases hx : x.key = key
    · have hxb : (x.key != key) = false := by simp [hx]
      have hkb : (x.key == k) = false := by
        simp only [beq_eq_false_iff_ne, ne_eq]
        exact fun hk => h (hk.symm.trans hx)
      rw [List.filter_cons, List.find?_cons, hxb, hkb]
      simpa using ih
    · have hxb : (x.key != key) = true := by simp [hx]
      rw [List.filter_cons, hxb, if_pos rfl, List.find?_cons, List.find?_cons, ih]

theorem touch_down (m : Mutex Nat) (c : Nat) (token : String) (px : Int) (w : World)
    (h : c ∈ w.down ∨ w.stores[c]? = none) :
    (touch redisEnv m c token px w).1 = false ∧
      (touch redisEnv m c token px w).2.stores = w.stores := by
  by_cases hd : c ∈ w.down
  · simp [touch, redisEnv, World.exec, hd, redisString]
  · have hs : w.stores[c]? = none := h.resolve_left hd
    simp [touch, redisEnv, World.exec, hd, hs, redisString]

theorem touch_of_ne (m : Mutex Nat) (c : Nat) (token : String) (px : Int) (w : World)
    (h : ∀ s, w.stores[c]? = some s → Store.GET w.clock s m.name ≠ Resp.bulk token) :
    (touch redisEnv m c token px w).1 = false ∧
      (touch redisEnv m c token px w).2.stores = w.stores := by
  by_cases hd : c ∈ w.down
  · exact touch_down m c token px w (Or.inl hd)
  · cases hs : w.stores[c]? with
    | none => exact touch_down m c token px w (Or.inr hs)
    | some s =>
      have hg := h s hs
      simp [touch, redisEnv, World.exec, hd, hs, serve, touchScript_of_ne _ _ _ _ _ hg,
        toReply, redisString, set_of_getElem? _ _ _ hs]

theorem touch_of_eq (m : Mutex Nat) (c : Nat) (token : String) (px : Int) (w : World)
    (s : Store) (hd : c ∉ w.down) (hs : w.stores[c]? = some s)
    (hg : Store.GET w.clock s m.name = Resp.bulk token) :
    (0 < px →
      (touch redisEnv m c token px w).1 = true ∧
      (touch redisEnv m c token px w).2.stores =
        w.stores.set c (Entry.mk m.name token (w.clock + px * Millisecond) ::
          s.filter (fun e => e.key != m.name))) ∧
    (px ≤ 0 →
      (touch redisEnv m c token px w).1 = false ∧
      (touch redisEnv m c token px w).2.stores = w.stores) := by
  obtain ⟨e, he, _⟩ := (GET_eq_bulk_iff _ _ _ _).mp hg
  constructor
  · intro hpx
    have hpx1 : ¬ px ≤ 0 := not_le.mpr hpx
    simp [touch, redisEnv, World.exec, hd, hs, serve, touchScript, hg, Store.SET, hpx1, he,
      toReply, redisString]
  · intro hpx
    simp [touch, redisEnv, World.exec, hd, hs, serve, touchScript, hg, Store.SET, hpx,
      toReply, redisString, set_of_getElem? _ _ _ hs]

theorem live_put_other (now at_ : Time) (s : Store) (key value k : String) (h : k ≠ key) :
    Store.live now (Entry.mk key value at_ :: s.filter (fun e => e.key != key)) k =
      Store.live now s k := by
  unfold Store.live
  have hkb : (key == k) = false := by
    simp only [beq_eq_false_iff_ne, ne_eq]
    exact fun hk => h hk.symm
  rw [List.find?_cons]
  simp only [hkb]
  rw [find?_filter_ne s key k h]

theorem live_put_self (now at_ : Time) (s : Store) (key value : String) (h : now ≤ at_) :
    Store.live now (Entry.mk key value at_ :: s.filter (fun e => e.key != key)) key =
      some (Entry.mk key value at_) := by
  unfold Store.live
  rw [List.find?_cons]
  simp [h]

/-- C10: `touch` on an instance returns false and leaves every instance as it was when the
value held under the key is not the token, or when the key is absent or expired; whatever it
returns, a key that did not exist on an instance does not exist afterwards; and when it
returns true, the key held the token before, and afterwards it holds the same token and
expires `px` milliseconds after the instant of the command. -/
theorem touch_preserves_ownership (m : Mutex Nat) (c : Nat) (token : String) (px : Int)
    (w : World) :
    ((∀ s, w.stores[c]? = some s → Store.GET w.clock s m.name ≠ Resp.bulk token) →
      (touch redisEnv m c token px w).1 = false ∧
      (touch redisEnv m c token px w).2.stores = w.stores) ∧
    (∀ (i : Nat) (s s' : Store) (k : String), w.stores[i]? = some s →
      (touch redisEnv m c token px w).2.stores[i]? = some s' →
      Store.GET w.clock s k = Resp.nilBulk → Store.GET w.clock s' k = Resp.nilBulk) ∧
    ((touch redisEnv m c token px w).1 = true →
      0 < px ∧ ∃ s, w.stores[c]? = some s ∧ Store.GET w.clock s m.name = Resp.bulk token ∧
        ∃ s', (touch redisEnv m c token px w).2.stores[c]? = some s' ∧
          Store.live w.clock s' m.name =
            some (Entry.mk m.name token (w.clock + px * Millisecond))) := by
  by_cases hne : ∀ s, w.stores[c]? = some s → Store.GET w.clock s m.name ≠ Resp.bulk token
  · have h := touch_of_ne m c token px w hne
    refine ⟨fun _ => h, ?_, ?_⟩
    · intro i s s' k hs hs' hk
      rw [h.2, hs] at hs'
      rw [← Option.some.inj hs']
      exact hk
    · intro ht
      rw [h.1] at ht
      exact absurd ht (by decide)
  · push_neg at hne
    obtain ⟨s, hs, hg⟩ := hne
    refine ⟨fun h => absurd hg (h s hs), ?_, ?_⟩
    · intro i s1 s' k hs1 hs' hk
      by_cases hd : c ∈ w.down
      · rw [(touch_down m c token px w (Or.inl hd)).2, hs1] at hs'
        rw [← Option.some.inj hs']
        exact hk
      · by_cases hpx : 0 < px
        · rw [((touch_of_eq m c token px w s hd hs hg).1 hpx).2] at hs'
          by_cases hic : c = i
          · subst hic
            rw [hs] at hs1
            have hs1' : s = s1 := Option.some.inj hs1
            subst hs1'
            rw [List.getElem?_set_self', hs] at hs'
            simp only [Option.map_eq_map, Option.map_some', Function.const_apply,
              Option.some.injEq] at hs'
            subst hs'
            have hkn : k ≠ m.name := by
              intro hkn
              rw [hkn, hg] at hk
              exact absurd hk (by simp)
            unfold Store.GET at hk ⊢
            rw [live_put_other _ _ _ _ _ _ hkn]
            exact hk
          · rw [List.getElem?_set_ne hic, hs1] at hs'
            rw [← Option.some.inj hs']
            exact hk
        · rw [((touch_of_eq m c token px w s hd hs hg).2 (not_lt.mp hpx)).2, hs1] at hs'
          rw [← Option.some.inj hs']
          exact hk
    · intro ht
      have hd : c ∉ w.down := by
        intro hd
        rw [(touch_down m c token px w (Or.inl hd)).1] at ht
        exact absurd ht (by decide)
      have hpx : 0 < px := by
        by_contra hpx
        rw [((touch_of_eq m c token px w s hd hs hg).2 (not_lt.mp hpx)).1] at ht
        exact absurd ht (by decide)
      refine ⟨hpx, s, hs, hg, _, ?_, live_put_self w.clock _ s m.name token ?_⟩
      · rw [((touch_of_eq m c token px w s hd hs hg).1 hpx).2, List.getElem?_set_self', hs]
        rfl
      · have : 0 < px * Millisecond := Int.mul_pos hpx (by decide)
        exact le_of_lt (lt_add_of_pos_right _ this)

/-- Witness of C5 on an instance where `"lock"` is held under another token. -/
theorem release_nonmatching_noop_witness :
    deleteScript 0 "lock" "mine" [Entry.mk "lock" "theirs" (8 * Second)] =
      (Resp.integer 0, [Entry.mk "lock" "theirs" (8 * Second)]) ∧
    (release redisEnv soloLock 0 "mine" heldByOther).2.stores = heldByOther.stores ∧
    (Unlock redisEnv soloLock heldByOther).2.2.stores = heldByOther.stores :=
  ⟨(release_nonmatching_noop soloLock heldByOther).1 0 "lock" "mine" _ (by decide),
    (release_nonmatching_noop soloLock heldByOther).2.1 0 "mine"
      (fun s hs => by cases hs; decide),
    (release_nonmatching_noop soloLock heldByOther).2.2 (by decide)
      (fun c hc s hs => by
        have hc0 : c = 0 := by simpa [soloLock, NewMutex, New] using hc
        subst hc0
        cases hs
        decide)⟩

/-- Witness of C8: the key is held by someone else, the single attempt gets no
confirmation, and the compare-and-delete is sent before `ErrFailed` is returned. -/
theorem rollback_on_failure_witness :
    (tryOnce (traced redisEnv) soloLock "mine" 0 (heldByOther, [])).ok = false ∧
    (lockLoop (traced redisEnv) soloLock "mine" 1 0 (heldByOther, [])).1
      = some Error.ErrFailed ∧
    (lockLoop (traced redisEnv) soloLock "mine" 1 0 (heldByOther, [])).2.2.2 =
      (tryOnce (traced redisEnv) soloLock "mine" 0 (heldByOther, [])).world.2 ++
        deleteEvents soloLock.name "mine" soloLock.connWrappers :=
  ⟨by decide,
    ((rollback_on_failure redisEnv soloLock "mine" 0 0 heldByOther []).2.2.1 (by decide)).2.2.1,
    ((rollback_on_failure redisEnv soloLock "mine" 0 0 heldByOther []).2.2.1 (by decide)).2.2.2⟩

/-- Witness of C10: extending with the token held succeeds, with another token it fails. -/
theorem touch_preserves_ownership_witness :
    ((touch redisEnv soloLock 0 "mine" 8000 heldByOther).1 = false ∧
      (touch redisEnv soloLock 0 "mine" 8000 heldByOther).2.stores = heldByOther.stores) ∧
    (touch redisEnv soloLock 0 "theirs" 8000 heldByOther).1 = true ∧
    ((0 : Int) < 8000 ∧ ∃ s, heldByOther.stores[0]? = some s ∧
      Store.GET heldByOther.clock s soloLock.name = Resp.bulk "theirs" ∧
      ∃ s', (touch redisEnv soloLock 0 "theirs" 8000 heldByOther).2.stores[0]? = some s' ∧
        Store.live heldByOther.clock s' soloLock.name =
          some (Entry.mk soloLock.name "theirs" (heldByOther.clock + 8000 * Millisecond))) :=
  ⟨(touch_preserves_ownership soloLock 0 "mine" 8000 heldByOther).1
      (fun s hs => by cases hs; decide),
    by decide,
    (touch_preserves_ownership soloLock 0 "theirs" 8000 heldByOther).2.2 (by decide)⟩

/-! ### The factory -/

theorem NewMutex_append (r : Redsync C) (name : String) (os : List (OptionFunc C))
    (o : OptionFunc C) : NewMutex r name (os ++ [o]) = o (NewMutex r name os) := by
  unfold NewMutex
  rw [List.foldl_append]
  rfl

theorem NewMutex_snoc (r : Redsync C) (name : String) (ss : List Setter) (s : Setter) :
    NewMutex r name ((ss ++ [s]).map Setter.option) =
      s.option (NewMutex r name (ss.map Setter.option)) := by
  rw [List.map_append, List.map_singleton, NewMutex_append]

theorem Setter_frame (s : Setter) (m : Mutex C) :
    (s.option m).name = m.name ∧ (s.option m).quorum = m.quorum ∧
    (s.option m).connWrappers = m.connWrappers ∧ (s.option m).value = m.value ∧
    (s.option m).until_ = m.until_ := by
  cases s <;> exact ⟨rfl, rfl, rfl, rfl, rfl⟩

theorem NewMutex_frame (r : Redsync C) (name : String) (ss : List Setter) :
    (NewMutex r name (ss.map Setter.option)).name = name ∧
    (NewMutex r name (ss.map Setter.option)).quorum = (r.connWrappers.length : Int) / 2 + 1 ∧
    (NewMutex r name (ss.map Setter.option)).connWrappers = r.connWrappers ∧
    (NewMutex r name (ss.map Setter.option)).value = "" ∧
    (NewMutex r name (ss.map Setter.option)).until_ = 0 := by
  induction ss using List.reverseRecOn with
  | nil => exact ⟨rfl, rfl, rfl, rfl, rfl⟩
  | append_singleton ss s ih =>
    rw [NewMutex_snoc]
    obtain ⟨h1, h2, h3, h4, h5⟩ := Setter_frame s (NewMutex r name (ss.map Setter.option))
    rw [h1, h2, h3, h4, h5]
    exact ih

theorem NewMutex_keep (r : Redsync C) (name : String) (pre post : List Setter) :
    ((∀ s ∈ post, s.isExpiry = false) →
      (NewMutex r name ((pre ++ post).map Setter.option)).expiry =
        (NewMutex r name (pre.map Setter.option)).expiry) ∧
    ((∀ s ∈ post, s.isTries = false) →
      (NewMutex r name ((pre ++ post).map Setter.option)).tries =
        (NewMutex r name (pre.map Setter.option)).tries) ∧
    ((∀ s ∈ post, s.isRetryDelay = false) →
      (NewMutex r name ((pre ++ post).map Setter.option)).delay =
        (NewMutex r name (pre.map Setter.option)).delay) ∧
    ((∀ s ∈ post, s.isDriftFactor = false) →
      (NewMutex r name ((pre ++ post).map Setter.option)).factor =
        (NewMutex r name (pre.map Setter.option)).factor) := by
  induction post using List.reverseRecOn with
  | nil => simp
  | append_singleton post s ih =>
    rw [← List.append_assoc, NewMutex_snoc]
    refine ⟨?_, ?_, ?_, ?_⟩
    · intro h
      rw [← ih.1 (fun x hx => h x (List.mem_append_left _ hx))]
      have hs := h s (List.mem_append_right _ (List.mem_singleton_self s))
      cases s <;> first | rfl | exact Bool.noConfusion hs
    · intro h
      rw [← ih.2.1 (fun x hx => h x (List.mem_append_left _ hx))]
      have hs := h s (List.mem_append_right _ (List.mem_singleton_self s))
      cases s <;> first | rfl | exact Bool.noConfusion hs
    · intro h
      rw [← ih.2.2.1 (fun x hx => h x (List.mem_append_left _ hx))]
      have hs := h s (List.mem_append_right _ (List.mem_singleton_self s))
      cases s <;> first | rfl | exact Bool.noConfusion hs
    · intro h
      rw [← ih.2.2.2 (fun x hx => h x (List.mem_append_left _ hx))]
      have hs := h s (List.mem_append_right _ (List.mem_singleton_self s))
      cases s <;> first | rfl | exact Bool.noConfusion hs

/-! ### The loop of `Lock` as a whole -/

theorem lockLoop_spec (E : Env W C) (m : Mutex C) (value : String) (r : Nat) :
    ∀ (i : Nat) (w : W),
      ((∀ k, k < r → (tryOnce E m value (i + k) (afterFailures E m value i k w)).ok = false) ∧
        lockLoop E m value r i w =
          (some Error.ErrFailed, m, afterFailures E m value i r w)) ∨
      (∃ k, k < r ∧
        (∀ j, j < k → (tryOnce E m value (i + j) (afterFailures E m value i j w)).ok = false) ∧
        (tryOnce E m value (i + k) (afterFailures E m value i k w)).ok = true ∧
        lockLoop E m value r i w =
          (none,
            { m with
              value := value
              until_ := (tryOnce E m value (i + k) (afterFailures E m value i k w)).until_ },
            (tryOnce E m value (i + k) (afterFailures E m value i k w)).world)) := by
  induction r with
  | zero =>
    intro i w
    exact Or.inl ⟨fun k hk => absurd hk (Nat.not_lt_zero k), rfl⟩
  | succ r ih =>
    intro i w
    cases hok : (tryOnce E m value i w).ok with
    | true =>
      refine Or.inr ⟨0, Nat.succ_pos r, fun j hj => absurd hj (Nat.not_lt_zero j), hok, ?_⟩
      rw [lockLoop, hok, if_pos rfl]
      rfl
    | false =>
      have hstep : lockLoop E m value (r + 1) i w =
          lockLoop E m value r (i + 1) (rollback E m value (tryOnce E m value i w).world) := by
        rw [lockLoop, hok, if_neg (by decide)]
      have hshift : ∀ k, tryOnce E m value (i + (k + 1)) (afterFailures E m value i (k + 1) w) =
          tryOnce E m value (i + 1 + k)
            (afterFailures E m value (i + 1) k
              (rollback E m value (tryOnce E m value i w).world)) := by
        intro k
        rw [afterFailures, Nat.add_assoc, Nat.add_comm 1 k]
      rcases ih (i + 1) (rollback E m value (tryOnce E m value i w).world) with
        ⟨hall, heq⟩ | ⟨k, hk, hbefore, hk_ok, heq⟩
      · refine Or.inl ⟨?_, ?_⟩
        · intro k hk
          cases k with
          | zero => exact hok
          | succ k =>
            rw [hshift]
            exact hall k (Nat.lt_of_succ_lt_succ hk)
        · rw [hstep, heq, afterFailures]
      · refine Or.inr ⟨k + 1, Nat.succ_lt_succ hk, ?_, ?_, ?_⟩
        · intro j hj
          cases j with
          | zero => exact hok
          | succ j =>
            rw [hshift]
            exact hbefore j (Nat.lt_of_succ_lt_succ hj)
        · rw [hshift]
          exact hk_ok
        · rw [hstep, heq, hshift]

/-- C11: `NewMutex` without options gives the name, expiry 8 s, 32 tries, delay 500 ms,
drift factor 0.01, quorum `N / 2 + 1` and the instance list of the factory; options are
applied in the order given on top of that; for each of the four fields, a list of setters
without a setter of that field leaves the default, and otherwise the last setter of that
field gives the value. -/
theorem NewMutex_defaults_and_options (r : Redsync C) (name : String) :
    NewMutex r name [] =
      { name := name
        expiry := 8000000000
        tries := 32
        delay := 500000000
        factor := mkRat 1 100
        quorum := ((r.connWrappers.length / 2 + 1 : Nat) : Int)
        value := ""
        until_ := 0
        connWrappers := r.connWrappers } ∧
    (∀ (os : List (OptionFunc C)) (o : OptionFunc C),
      NewMutex r name (os ++ [o]) = o (NewMutex r name os)) ∧
    (∀ ss : List Setter,
      (NewMutex r name (ss.map Setter.option)).name = name ∧
      (NewMutex r name (ss.map Setter.option)).quorum =
        ((r.connWrappers.length / 2 + 1 : Nat) : Int) ∧
      (NewMutex r name (ss.map Setter.option)).connWrappers = r.connWrappers) ∧
    (∀ ss : List Setter,
      ((∀ s ∈ ss, s.isExpiry = false) →
        (NewMutex r name (ss.map Setter.option)).expiry = 8 * Second) ∧
      ((∀ s ∈ ss, s.isTries = false) →
        (NewMutex r name (ss.map Setter.option)).tries = 32) ∧
      ((∀ s ∈ ss, s.isRetryDelay = false) →
        (NewMutex r name (ss.map Setter.option)).delay = 500 * Millisecond) ∧
      ((∀ s ∈ ss, s.isDriftFactor = false) →
        (NewMutex r name (ss.map Setter.option)).factor = mkRat 1 100)) ∧
    (∀ (pre post : List Setter),
      (∀ d, (∀ s ∈ post, s.isExpiry = false) →
        (NewMutex r name ((pre ++ Setter.expiry d :: post).map Setter.option)).expiry = d) ∧
      (∀ n, (∀ s ∈ post, s.isTries = false) →
        (NewMutex r name ((pre ++ Setter.tries n :: post).map Setter.option)).tries = n) ∧
      (∀ d, (∀ s ∈ post, s.isRetryDelay = false) →
        (NewMutex r name ((pre ++ Setter.retryDelay d :: post).map Setter.option)).delay
          = d) ∧
      (∀ f, (∀ s ∈ post, s.isDriftFactor = false) →
        (NewMutex r name ((pre ++ Setter.driftFactor f :: post).map Setter.option)).factor
          = f)) := by
  have hq : (r.connWrappers.length : Int) / 2 + 1 = ((r.connWrappers.length / 2 + 1 : Nat) : Int) := by
    push_cast
    rfl
  refine ⟨?_, NewMutex_append r name, ?_, ?_, ?_⟩
  · unfold NewMutex
    rw [List.foldl_nil, hq]
    rfl
  · intro ss
    obtain ⟨h1, h2, h3, _, _⟩ := NewMutex_frame r name ss
    exact ⟨h1, h2.trans hq, h3⟩
  · intro ss
    have h := NewMutex_keep r name [] ss
    rw [List.nil_append] at h
    exact ⟨fun hs => h.1 hs, fun hs => h.2.1 hs, fun hs => h.2.2.1 hs, fun hs => h.2.2.2 hs⟩
  · intro pre post
    refine ⟨?_, ?_, ?_, ?_⟩
    · intro d hs
      have h := (NewMutex_keep r name (pre ++ [Setter.expiry d]) post).1 hs
      rw [List.append_assoc, List.singleton_append] at h
      rw [h, NewMutex_snoc]
      rfl
    · intro n hs
      have h := (NewMutex_keep r name (pre ++ [Setter.tries n]) post).2.1 hs
      rw [List.append_assoc, List.singleton_append] at h
      rw [h, NewMutex_snoc]
      rfl
    · intro d hs
      have h := (NewMutex_keep r name (pre ++ [Setter.retryDelay d]) post).2.2.1 hs
      rw [List.append_assoc, List.singleton_append] at h
      rw [h, NewMutex_snoc]
      rfl
    · intro f hs
      have h := (NewMutex_keep r name (pre ++ [Setter.driftFactor f]) post).2.2.2 hs
      rw [List.append_assoc, List.singleton_append] at h
      rw [h, NewMutex_snoc]
      rfl

theorem Lock_of_genValue_error (E : Env W C) (m : Mutex C) (w : W) (e : Error)
    (h : (genValue E w).1.2 = some e) : Lock E m w = (some e, m, (genValue E w).2) := by
  unfold Lock
  dsimp only
  rw [h]

theorem Lock_of_genValue_ok (E : Env W C) (m : Mutex C) (w : W)
    (h : (genValue E w).1.2 = none) :
    Lock E m w = lockLoop E m (genValue E w).1.1 m.tries.toNat 0 (genValue E w).2 := by
  unfold Lock
  dsimp only
  rw [h]

theorem genValue_error_is_rand (E : Env W C) (w : W) (e : Error)
    (h : (genValue E w).1.2 = some e) : ∃ msg, e = Error.rand msg := by
  unfold genValue at h
  dsimp only at h
  split at h
  · next msg _ => exact ⟨msg, (Option.some.inj h).symm⟩
  · exact absurd h (by simp)

theorem lockLoop_mutex (E : Env W C) (m : Mutex C) (value : String) (r i : Nat) (w : W) :
    ((lockLoop E m value r i w).1 = some Error.ErrFailed ∧ (lockLoop E m value r i w).2.1 = m) ∨
    ((lockLoop E m value r i w).1 = none ∧
      ∃ u, (lockLoop E m value r i w).2.1 = { m with value := value, until_ := u }) := by
  rcases lockLoop_spec E m value r i w with ⟨_, heq⟩ | ⟨k, _, _, _, heq⟩
  · rw [heq]
    exact Or.inl ⟨rfl, rfl⟩
  · rw [heq]
    exact Or.inr ⟨rfl, _, rfl⟩

theorem Lock_sameConfig (E : Env W C) (m : Mutex C) (w : W) : sameConfig m (Lock E m w).2.1 := by
  cases hg : (genValue E w).1.2 with
  | some e =>
    rw [Lock_of_genValue_error E m w e hg]
    exact ⟨rfl, rfl, rfl, rfl, rfl, rfl, rfl⟩
  | none =>
    rw [Lock_of_genValue_ok E m w hg]
    rcases lockLoop_mutex E m (genValue E w).1.1 m.tries.toNat 0 (genValue E w).2 with
      ⟨_, h⟩ | ⟨_, u, h⟩
    · rw [h]
      exact ⟨rfl, rfl, rfl, rfl, rfl, rfl, rfl⟩
    · rw [h]
      exact ⟨rfl, rfl, rfl, rfl, rfl, rfl, rfl⟩

/-- C12: a mutex built by `NewMutex` with any list of the four setters has quorum
`N / 2 + 1` for the `N` instances of the factory, the instance list of the factory and the
name given; and `Lock`, `Unlock` and `Extend` hand back a mutex with the same name, expiry,
tries, delay, drift factor, quorum and instance list. -/
theorem quorum_and_config_invariant (r : Redsync C) (name : String) (ss : List Setter)
    (E : Env W C) (m : Mutex C) (w : W) :
    (NewMutex r name (ss.map Setter.option)).quorum =
      ((r.connWrappers.length / 2 + 1 : Nat) : Int) ∧
    (NewMutex r name (ss.map Setter.option)).connWrappers = r.connWrappers ∧
    (NewMutex r name (ss.map Setter.option)).name = name ∧
    sameConfig m (Lock E m w).2.1 ∧
    sameConfig m (Unlock E m w).2.1 ∧
    sameConfig m (Extend E m w).2.1 := by
  obtain ⟨h1, h2, h3, _, _⟩ := NewMutex_frame r name ss
  refine ⟨?_, h3, h1, Lock_sameConfig E m w, ⟨rfl, rfl, rfl, rfl, rfl, rfl, rfl⟩,
    ⟨rfl, rfl, rfl, rfl, rfl, rfl, rfl⟩⟩
  rw [h2]
  push_cast
  rfl

/-- C17: when `Lock` returns an error, the mutex is exactly as before the call, `value` and
`until` included. When it returns nil, some iteration `k < m.tries` is the first whose `if`
condition holds, and the mutex differs from the one before only in `value` and `until`,
which are the token of the call and the deadline computed in iteration `k`. -/
theorem Lock_failure_atomic (E : Env W C) (m : Mutex C) (w : W) :
    ((Lock E m w).1 ≠ none → (Lock E m w).2.1 = m) ∧
    ((Lock E m w).1 = none →
      ∃ k : Nat, (k : Int) < m.tries ∧
        (∀ j, j < k →
          (attemptAt E m (genValue E w).1.1 (genValue E w).2 j).ok = false) ∧
        (attemptAt E m (genValue E w).1.1 (genValue E w).2 k).ok = true ∧
        (Lock E m w).2.1 =
          { m with
            value := (genValue E w).1.1
            until_ := (attemptAt E m (genValue E w).1.1 (genValue E w).2 k).until_ }) := by
  cases hg : (genValue E w).1.2 with
  | some e =>
    rw [Lock_of_genValue_error E m w e hg]
    exact ⟨fun _ => rfl, fun h => absurd h (by simp)⟩
  | none =>
    rw [Lock_of_genValue_ok E m w hg]
    rcases lockLoop_spec E m (genValue E w).1.1 m.tries.toNat 0 (genValue E w).2 with
      ⟨_, heq⟩ | ⟨k, hk, hbefore, hok, heq⟩
    · rw [heq]
      exact ⟨fun _ => rfl, fun h => absurd h (by simp)⟩
    · rw [heq]
      refine ⟨fun h => absurd rfl h, fun _ => ⟨k, by omega, ?_, ?_, ?_⟩⟩
      · intro j hj
        have := hbefore j hj
        rw [Nat.zero_add] at this
        exact this
      · rw [Nat.zero_add] at hok
        exact hok
      · rw [Nat.zero_add]
        rfl

/-! ### The token and the deadline of a successful `Lock` -/

theorem fillBuffer_length (n : Nat) (written : List Nat) : (fillBuffer n written).length = n := by
  unfold fillBuffer
  simp

theorem base64Chars_ne_nil (b : List Nat) (h : b ≠ []) : base64Chars b ≠ [] := by
  match b, h with
  | [_], _ => simp [base64Chars]
  | [_, _], _ => simp [base64Chars]
  | _ :: _ :: _ :: _, _ => simp [base64Chars]

theorem genValue_token_ne_empty (E : Env W C) (w : W) (h : (genValue E w).1.2 = none) :
    (genValue E w).1.1 ≠ "" := by
  unfold genValue at h ⊢
  dsimp only at h ⊢
  split
  · next e he => rw [he] at h; exact absurd h (by simp)
  · next he =>
    dsimp only
    intro hs
    have hl : fillBuffer 32 (E.randRead 32 w).1.1 ≠ [] := by
      intro hnil
      have := fillBuffer_length 32 (E.randRead 32 w).1.1
      rw [hnil] at this
      exact absurd this (by decide)
    apply base64Chars_ne_nil _ hl
    have hdata := congrArg String.data hs
    exact hdata

/-- On success the stored token is not empty and the stored deadline is strictly after the
clock reading of the check of the committing iteration. -/
theorem Lock_success_token_and_deadline (E : Env W C) (m : Mutex C) (w : W)
    (h : (Lock E m w).1 = none) :
    (Lock E m w).2.1.value ≠ "" ∧
    ∃ k t, (attemptAt E m (genValue E w).1.1 (genValue E w).2 k).check = some t ∧
      t < (Lock E m w).2.1.until_ := by
  cases hg : (genValue E w).1.2 with
  | some e =>
    rw [Lock_of_genValue_error E m w e hg] at h
    exact absurd h (by simp)
  | none =>
    rw [Lock_of_genValue_ok E m w hg] at h ⊢
    rcases lockLoop_spec E m (genValue E w).1.1 m.tries.toNat 0 (genValue E w).2 with
      ⟨_, heq⟩ | ⟨k, hk, hbefore, hok, heq⟩
    · rw [heq] at h
      exact absurd h (by simp)
    · rw [heq]
      refine ⟨genValue_token_ne_empty E w hg, k, ?_⟩
      rw [Nat.zero_add] at hok
      obtain ⟨_, t, ht, hlt⟩ := (tryOnce_ok_iff E m _ k _).mp hok
      refine ⟨t, ht, ?_⟩
      rw [Nat.zero_add]
      exact hlt

/-- C13: with expiry 100 ms, default drift factor and instances answering within 100
microseconds, `Lock` succeeds, decides at clock 0.3 ms and stores the deadline 101 ms:
the token is not empty and the deadline is in the future, but it is not below
`now + expiry` (100.3 ms). -/
theorem Lock_deadline_not_below_now_plus_expiry :
    (Lock redisEnv shortLock threeIdle).1 = none ∧
    (Lock redisEnv shortLock threeIdle).2.1.value ≠ "" ∧
    (attemptAt redisEnv shortLock (genValue redisEnv threeIdle).1.1
        (genValue redisEnv threeIdle).2 0).check = some 300000 ∧
    (Lock redisEnv shortLock threeIdle).2.1.until_ = 101 * Millisecond ∧
    (0 : ℚ) ≤ shortLock.factor ∧ 0 < shortLock.expiry ∧
    300000 < (Lock redisEnv shortLock threeIdle).2.1.until_ ∧
    ¬ ((Lock redisEnv shortLock threeIdle).2.1.until_ < 300000 + shortLock.expiry) := by
  decide

/-! ### Counting against the quorum -/

theorem fanOut_le_length (f : C → W → Bool × W) (cs : List C) (w : W) :
    (fanOut f cs 0 w).1 ≤ cs.length := by
  rw [fanOut_count, Nat.zero_add, ← fanOutResults_length f cs w]
  exact List.count_le_length _ _

theorem count_true_add_count_false (l : List Bool) :
    l.count true + l.count false = l.length := by
  induction l with
  | nil => rfl
  | cons b bs ih => cases b <;> simp [List.count_cons] <;> omega

theorem tryBody_n (E : Env W C) (m : Mutex C) (value : String) (w : W) :
    (tryBody E m value w).n =
      (fanOut (fun c => acquire E m c value) m.connWrappers 0 (E.now w).2).1 := by
  unfold tryBody
  dsimp only
  split <;> rfl

theorem tryOnce_not_ok_of_few (E : Env W C) (m : Mutex C) (value : String) (i : Nat) (w : W)
    (h : (m.connWrappers.length : Int) < m.quorum) : (tryOnce E m value i w).ok = false := by
  rw [tryOnce_fail_iff]
  left
  have hn : (tryOnce E m value i w).n ≤ m.connWrappers.length := by
    unfold tryOnce
    rw [tryBody_n]
    exact fanOut_le_length _ _ _
  omega

theorem lockLoop_failed_of_few (E : Env W C) (m : Mutex C) (value : String) (r i : Nat) (w : W)
    (h : (m.connWrappers.length : Int) < m.quorum) :
    (lockLoop E m value r i w).1 = some Error.ErrFailed := by
  rcases lockLoop_spec E m value r i w with ⟨_, heq⟩ | ⟨k, _, _, hok, _⟩
  · rw [heq]
  · rw [tryOnce_not_ok_of_few E m value _ _ h] at hok
    exact absurd hok (by decide)

/-- C16: let `m` be a mutex built by `NewMutex` over `N` instances, in whatever state
`Lock`, `Unlock` and `Extend` have left its `value` and `until`. When `Unlock` returns false,
`release` returned true for at most `N / 2` of the `N` instances and false for at least
`(N + 1) / 2` of them. -/
theorem Unlock_false_majority_missing (r : Redsync C) (name : String) (ss : List Setter)
    (m : Mutex C) (hm : sameConfig (NewMutex r name (ss.map Setter.option)) m)
    (E : Env W C) (w : W) (h : (Unlock E m w).1 = false) :
    (fanOutResults (fun c => release E m c m.value) m.connWrappers w).length
      = r.connWrappers.length ∧
    (fanOutResults (fun c => release E m c m.value) m.connWrappers w).count true
      ≤ r.connWrappers.length / 2 ∧
    (r.connWrappers.length + 1) / 2 ≤
      (fanOutResults (fun c => release E m c m.value) m.connWrappers w).count false := by
  obtain ⟨_, hq0, hc0, _, _⟩ := NewMutex_frame r name ss
  obtain ⟨_, _, _, _, _, hq1, hc1⟩ := hm
  have hq : m.quorum = (r.connWrappers.length : Int) / 2 + 1 := hq1.trans hq0
  have hc : m.connWrappers = r.connWrappers := hc1.trans hc0
  unfold Unlock at h
  simp only [decide_eq_false_iff_not, fanOut_count, Nat.zero_add, hq] at h
  have hlen := (fanOutResults_length (fun c => release E m c m.value) m.connWrappers w).trans
    (congrArg List.length hc)
  have hsum := count_true_add_count_false
    (fanOutResults (fun c => release E m c m.value) m.connWrappers w)
  refine ⟨hlen, ?_, ?_⟩ <;> omega

/-- Witness of C16: the mutex holds the token of a successful `Lock`; two of the three
instances then become unreachable, so one `release` returns true, two return false and
`Unlock` returns false. -/
theorem Unlock_false_majority_missing_witness :
    (Lock redisEnv defaultLock threeIdle).1 = none ∧
    lockedLock.value ≠ "" ∧
    (Unlock redisEnv lockedLock twoDownAfterLock).1 = false ∧
    (fanOutResults (fun c => release redisEnv lockedLock c lockedLock.value)
      lockedLock.connWrappers twoDownAfterLock).count true = 1 ∧
    (fanOutResults (fun c => release redisEnv lockedLock c lockedLock.value)
      lockedLock.connWrappers twoDownAfterLock).count true ≤ 3 / 2 ∧
    (3 + 1) / 2 ≤ (fanOutResults (fun c => release redisEnv lockedLock c lockedLock.value)
      lockedLock.connWrappers twoDownAfterLock).count false :=
  ⟨by decide, by decide, by decide, by decide,
    (Unlock_false_majority_missing (New [0, 1, 2]) "lock" [] lockedLock
      (Lock_sameConfig redisEnv defaultLock threeIdle) redisEnv twoDownAfterLock
      (by decide)).2⟩

theorem Unlock_false_of_few (E : Env W C) (m : Mutex C) (w : W)
    (h : (m.connWrappers.length : Int) < m.quorum) : (Unlock E m w).1 = false := by
  unfold Unlock
  have := fanOut_le_length (fun c => release E m c m.value) m.connWrappers w
  simp only [decide_eq_false_iff_not]
  omega

theorem Extend_false_of_few (E : Env W C) (m : Mutex C) (w : W)
    (h : (m.connWrappers.length : Int) < m.quorum) : (Extend E m w).1 = false := by
  unfold Extend
  have := fanOut_le_length (fun c => touch E m c m.value (expiryMillis m)) m.connWrappers w
  simp only [decide_eq_false_iff_not]
  omega

/-- Counterexample to C19 as stated: without instances and with a failing source of
randomness, `Lock` fails with the error of the source, not with `ErrFailed`. -/
theorem Lock_without_instances_rand_error :
    emptyLock.connWrappers = [] ∧ emptyLock.quorum = 1 ∧
    (Lock redisEnv emptyLock noEntropy).1 = some (Error.rand "entropy source unavailable") ∧
    (Lock redisEnv emptyLock noEntropy).1 ≠ some Error.ErrFailed := by
  decide

/-- C19 (amended): the quorum `q = N / 2 + 1` of a mutex built by `NewMutex` over `N`
instances satisfies `2 * q > N`; two sets of at least `q` of the `N` instances have an
element in common; a fan-out over the instances counts at most `N` successes; and with
`N = 0` the quorum is 1, `Lock` always fails, with `ErrFailed` whenever the token was
generated and with the error of the source of randomness otherwise, and `Unlock` and
`Extend` return false. -/
theorem majority_overlap (r : Redsync C) (name : String) (ss : List Setter) (E : Env W C)
    (w : W) (m : Mutex C) (hm : m = NewMutex r name (ss.map Setter.option)) :
    2 * m.quorum > (r.connWrappers.length : Int) ∧
    (∀ A B : Finset (Fin r.connWrappers.length),
      m.quorum ≤ (A.card : Int) → m.quorum ≤ (B.card : Int) → (A ∩ B).Nonempty) ∧
    (∀ f : C → W → Bool × W, (fanOut f m.connWrappers 0 w).1 ≤ r.connWrappers.length) ∧
    (r.connWrappers = [] →
      m.quorum = 1 ∧
      (Lock E m w).1 ≠ none ∧
      ((genValue E w).1.2 = none → (Lock E m w).1 = some Error.ErrFailed) ∧
      (∀ e, (genValue E w).1.2 = some e → (Lock E m w).1 = some e) ∧
      (Unlock E m w).1 = false ∧
      (Extend E m w).1 = false) := by
  obtain ⟨_, hq, hc, _, _⟩ := NewMutex_frame r name ss
  rw [← hm] at hq hc
  have h2 : 2 * m.quorum > (r.connWrappers.length : Int) := by
    rw [hq]
    omega
  refine ⟨h2, ?_, ?_, ?_⟩
  · intro A B hA hB
    by_contra hne
    have hempty : A ∩ B = ∅ := Finset.not_nonempty_iff_eq_empty.mp hne
    have hsum := Finset.card_union_add_card_inter A B
    rw [hempty, Finset.card_empty, Nat.add_zero] at hsum
    have hle : (A ∪ B).card ≤ r.connWrappers.length := by
      have := Finset.card_le_univ (A ∪ B)
      rwa [Fintype.card_fin] at this
    omega
  · intro f
    rw [hc]
    exact fanOut_le_length f r.connWrappers w
  · intro hnil
    have hq1 : m.quorum = 1 := by
      rw [hq, hnil]
      simp
    have hlen : (m.connWrappers.length : Int) < m.quorum := by
      rw [hc, hq1, hnil]
      simp
    have hok : (genValue E w).1.2 = none → (Lock E m w).1 = some Error.ErrFailed := by
      intro hg
      rw [Lock_of_genValue_ok E m w hg]
      exact lockLoop_failed_of_few E m _ _ _ _ hlen
    have herr : ∀ e, (genValue E w).1.2 = some e → (Lock E m w).1 = some e := by
      intro e hg
      rw [Lock_of_genValue_error E m w e hg]
    refine ⟨hq1, ?_, hok, herr, Unlock_false_of_few E m w hlen, Extend_false_of_few E m w hlen⟩
    cases hg : (genValue E w).1.2 with
    | some e => rw [herr e hg]; simp
    | none => rw [hok hg]; simp

/-- Witness of C19: a factory without instances and a working source of randomness. -/
theorem majority_overlap_witness :
    emptyLock.quorum = 1 ∧
    (Lock redisEnv emptyLock threeIdle).1 = some Error.ErrFailed ∧
    (Unlock redisEnv emptyLock threeIdle).1 = false ∧
    (Extend redisEnv emptyLock threeIdle).1 = false :=
  ⟨((majority_overlap (New []) "lock" [] redisEnv threeIdle emptyLock rfl).2.2.2 rfl).1,
    ((majority_overlap (New []) "lock" [] redisEnv threeIdle emptyLock rfl).2.2.2 rfl).2.2.1
      (by decide),
    ((majority_overlap (New []) "lock" [] redisEnv threeIdle emptyLock rfl).2.2.2 rfl).2.2.2.2.1,
    ((majority_overlap (New []) "lock" [] redisEnv threeIdle emptyLock rfl).2.2.2 rfl).2.2.2.2.2⟩

/-! ### The calls made by `Lock` -/

theorem genValue_traced (E : Env W C) (w : W) (log : List (Event C)) :
    genValue (traced E) (w, log) =
      ((genValue E w).1, ((genValue E w).2, log ++ [Event.rand 32])) := by
  unfold genValue traced
  dsimp only
  split <;> rfl

theorem tryBody_log (E : Env W C) (m : Mutex C) (value : String) (w : W)
    (log : List (Event C)) :
    (tryBody (traced E) m value (w, log)).world.2 =
      log ++ (tryBody (traced E) m value (w, [])).world.2 := by
  unfold tryBody
  simp only [traced_now, fanOut_traced (fun c => acquire E m c value) _
    (fun c => Event.cmd c (Command.setNX m.name value (expiryMillis m)))
    (fun c w log => acquire_traced E m value c w log)]
  split <;> simp

theorem tryOnce_log (E : Env W C) (m : Mutex C) (value : String) (i : Nat) (w : W)
    (log : List (Event C)) :
    (tryOnce (traced E) m value i (w, log)).world.2 = log ++ attemptLog E m value i w := by
  unfold attemptLog tryOnce
  by_cases hi : i = 0
  · simp only [hi, ne_eq, not_true_eq_false, if_false]
    exact tryBody_log E m value w log
  · simp only [hi, ne_eq, not_false_eq_true, if_true, traced_sleep]
    rw [tryBody_log E m value (E.sleep m.delay w) (log ++ [Event.sleep m.delay]),
      tryBody_log E m value (E.sleep m.delay w) ([] ++ [Event.sleep m.delay])]
    simp

theorem tryOnce_traced_world (E : Env W C) (m : Mutex C) (value : String) (i : Nat) (w : W)
    (log : List (Event C)) :
    (tryOnce (traced E) m value i (w, log)).world =
      ((tryOnce E m value i w).world, log ++ attemptLog E m value i w) := by
  obtain ⟨_, _, h3, _⟩ := tryOnce_traced E m value i w log
  exact Prod.ext h3 (tryOnce_log E m value i w log)

theorem afterFailures_traced (E : Env W C) (m : Mutex C) (value : String) (k : Nat) :
    ∀ (i : Nat) (w : W) (log : List (Event C)),
      afterFailures (traced E) m value i k (w, log) =
        (afterFailures E m value i k w, log ++ (failedIterations E m value i k w).flatten) := by
  induction k with
  | zero => intro i w log; simp [afterFailures, failedIterations]
  | succ k ih =>
    intro i w log
    rw [afterFailures, tryOnce_traced_world, rollback_traced, ih, afterFailures,
      failedIterations, List.flatten_cons]
    simp only [List.append_assoc]

theorem failedIterations_length (E : Env W C) (m : Mutex C) (value : String) (k : Nat) :
    ∀ (i : Nat) (w : W), (failedIterations E m value i k w).length = k := by
  induction k with
  | zero => intro i w; rfl
  | succ k ih => intro i w; rw [failedIterations, List.length_cons, ih]

theorem tryBody_body_events (E : Env W C) (m : Mutex C) (value : String) (w : W) :
    ∀ e ∈ (tryBody (traced E) m value (w, [])).world.2,
      (∃ t, e = Event.now t) ∨
        ∃ c, c ∈ m.connWrappers ∧
          e = Event.cmd c (Command.setNX m.name value (expiryMillis m)) := by
  unfold tryBody
  simp only [traced_now, fanOut_traced (fun c => acquire E m c value) _
    (fun c => Event.cmd c (Command.setNX m.name value (expiryMillis m)))
    (fun c w log => acquire_traced E m value c w log)]
  split
  · intro e he
    simp only [List.nil_append, List.mem_append, List.mem_map, List.mem_singleton] at he
    rcases he with (((h | h) | h) | h) | h
    · exact Or.inl ⟨_, h⟩
    · obtain ⟨c, hc, rfl⟩ := h
      exact Or.inr ⟨c, hc, rfl⟩
    · exact Or.inl ⟨_, h⟩
    · exact Or.inl ⟨_, h⟩
    · exact Or.inl ⟨_, h⟩
  · intro e he
    simp only [List.nil_append, List.mem_append, List.mem_map, List.mem_singleton] at he
    rcases he with ((h | h) | h) | h
    · exact Or.inl ⟨_, h⟩
    · obtain ⟨c, hc, rfl⟩ := h
      exact Or.inr ⟨c, hc, rfl⟩
    · exact Or.inl ⟨_, h⟩
    · exact Or.inl ⟨_, h⟩

theorem attemptLog_shape (E : Env W C) (m : Mutex C) (value : String) (i : Nat) (w : W) :
    ∃ body, attemptLog E m value i w =
        (if i = 0 then [] else [Event.sleep m.delay]) ++ body ∧
      ∀ e ∈ body, e.isSleep = false ∧ e.isRand = false ∧ e.isDelete = false := by
  have hbody : ∀ w1 : W, ∀ e ∈ (tryBody (traced E) m value (w1, [])).world.2,
      e.isSleep = false ∧ e.isRand = false ∧ e.isDelete = false := by
    intro w1 e he
    rcases tryBody_body_events E m value w1 e he with ⟨t, rfl⟩ | ⟨c, _, rfl⟩ <;>
      exact ⟨rfl, rfl, rfl⟩
  unfold attemptLog tryOnce
  by_cases hi : i = 0
  · simp only [hi, ne_eq, not_true_eq_false, if_false, if_true, List.nil_append]
    exact ⟨_, rfl, hbody w⟩
  · simp only [hi, ne_eq, not_false_eq_true, if_true, if_false, traced_sleep]
    rw [tryBody_log E m value (E.sleep m.delay w) ([] ++ [Event.sleep m.delay])]
    exact ⟨_, rfl, hbody (E.sleep m.delay w)⟩

theorem sleepCount_append (l1 l2 : List (Event C)) :
    sleepCount (l1 ++ l2) = sleepCount l1 + sleepCount l2 := by
  unfold sleepCount
  exact List.countP_append _ _ _

theorem sleepCount_of_none (l : List (Event C)) (h : ∀ e ∈ l, e.isSleep = false) :
    sleepCount l = 0 := by
  unfold sleepCount
  rw [List.countP_eq_zero]
  intro e he
  rw [h e he]
  decide

theorem sleepCount_deleteEvents (name value : String) (conns : List C) :
    sleepCount (deleteEvents name value conns) = 0 := by
  apply sleepCount_of_none
  intro e he
  unfold deleteEvents at he
  obtain ⟨c, _, rfl⟩ := List.mem_map.mp he
  rfl

theorem sleepCount_attemptLog (E : Env W C) (m : Mutex C) (value : String) (i : Nat) (w : W) :
    sleepCount (attemptLog E m value i w) = if i = 0 then 0 else 1 := by
  obtain ⟨body, hshape, hbody⟩ := attemptLog_shape E m value i w
  rw [hshape, sleepCount_append, sleepCount_of_none body (fun e he => (hbody e he).1)]
  by_cases hi : i = 0
  · simp only [hi, if_true]
    rfl
  · simp only [hi, if_false]
    rfl

theorem sleepCount_failedIterations (E : Env W C) (m : Mutex C) (value : String) (k : Nat) :
    ∀ (i : Nat) (w : W),
      sleepCount (failedIterations E m value i k w).flatten = if i = 0 then k - 1 else k := by
  induction k with
  | zero =>
    intro i w
    rw [failedIterations, List.flatten_nil]
    by_cases hi : i = 0 <;> simp [hi, sleepCount]
  | succ k ih =>
    intro i w
    rw [failedIterations, List.flatten_cons, sleepCount_append, sleepCount_append,
      sleepCount_attemptLog, sleepCount_deleteEvents, ih]
    by_cases hi : i = 0
    · simp [hi]
    · simp [hi]
      omega

theorem lockLoop_traced_events (E : Env W C) (m : Mutex C) (value : String) (r : Nat) :
    ∀ (i : Nat) (w : W) (log : List (Event C)),
      ∃ evs, (lockLoop (traced E) m value r i (w, log)).2.2.2 = log ++ evs ∧
        ∀ e ∈ evs, loopEvent m value e := by
  induction r with
  | zero =>
    intro i w log
    exact ⟨[], (List.append_nil log).symm, fun e he => absurd he (List.not_mem_nil e)⟩
  | succ r ih =>
    intro i w log
    obtain ⟨_, _, h3, evs, hlog, hevs⟩ := tryOnce_traced E m value i w log
    rw [lockLoop]
    cases hok : (tryOnce (traced E) m value i (w, log)).ok with
    | true =>
      rw [if_pos rfl]
      exact ⟨evs, hlog, fun e he => Or.inl (hevs e he)⟩
    | false =>
      rw [if_neg (by decide)]
      have hw : (tryOnce (traced E) m value i (w, log)).world =
          ((tryOnce E m value i w).world, log ++ evs) := Prod.ext h3 hlog
      rw [hw, rollback_traced]
      obtain ⟨evs2, hlog2, hevs2⟩ := ih (i + 1) (rollback E m value (tryOnce E m value i w).world)
        (log ++ evs ++ deleteEvents m.name value m.connWrappers)
      refine ⟨evs ++ deleteEvents m.name value m.connWrappers ++ evs2, ?_, ?_⟩
      · rw [hlog2]
        simp only [List.append_assoc]
      · intro e he
        rcases List.mem_append.mp he with h | h
        · rcases List.mem_append.mp h with h1 | h1
          · exact Or.inl (hevs e h1)
          · unfold deleteEvents at h1
            obtain ⟨c, hc, rfl⟩ := List.mem_map.mp h1
            exact Or.inr ⟨c, hc, rfl⟩
        · exact hevs2 e h

theorem tryOnce_traced_ok_at (E : Env W C) (m : Mutex C) (value : String) (i k : Nat) (w : W)
    (log : List (Event C)) :
    (tryOnce (traced E) m value (i + k) (afterFailures (traced E) m value i k (w, log))).ok =
      (tryOnce E m value (i + k) (afterFailures E m value i k w)).ok := by
  rw [afterFailures_traced]
  exact (tryOnce_traced E m value (i + k) _ _).1

theorem lockLoop_traced_log (E : Env W C) (m : Mutex C) (value : String) (r i : Nat) (w : W)
    (log : List (Event C)) :
    ((∀ k, k < r → (tryOnce E m value (i + k) (afterFailures E m value i k w)).ok = false) →
      (lockLoop (traced E) m value r i (w, log)).1 = some Error.ErrFailed ∧
      (lockLoop (traced E) m value r i (w, log)).2.2.2 =
        log ++ (failedIterations E m value i r w).flatten) ∧
    (∀ k, k < r →
      (∀ j, j < k → (tryOnce E m value (i + j) (afterFailures E m value i j w)).ok = false) →
      (tryOnce E m value (i + k) (afterFailures E m value i k w)).ok = true →
      (lockLoop (traced E) m value r i (w, log)).1 = none ∧
      (lockLoop (traced E) m value r i (w, log)).2.2.2 =
        log ++ ((failedIterations E m value i k w).flatten ++
          attemptLog E m value (i + k) (afterFailures E m value i k w))) := by
  constructor
  · intro hall
    rcases lockLoop_spec (traced E) m value r i (w, log) with ⟨_, heq⟩ | ⟨k, hk, _, hok, _⟩
    · rw [heq, afterFailures_traced]
      exact ⟨rfl, rfl⟩
    · rw [tryOnce_traced_ok_at, hall k hk] at hok
      exact absurd hok (by decide)
  · intro k hk hbefore hok
    rcases lockLoop_spec (traced E) m value r i (w, log) with
      ⟨hall, _⟩ | ⟨k1, hk1, hbefore1, hok1, heq⟩
    · have := hall k hk
      rw [tryOnce_traced_ok_at, hok] at this
      exact absurd this (by decide)
    · have hkk : k1 = k := by
        rcases Nat.lt_trichotomy k1 k with h | h | h
        · have := hbefore k1 h
          rw [tryOnce_traced_ok_at] at hok1
          rw [hok1] at this
          exact absurd this (by decide)
        · exact h
        · have := hbefore1 k h
          rw [tryOnce_traced_ok_at, hok] at this
          exact absurd this (by decide)
      subst hkk
      rw [heq, afterFailures_traced, tryOnce_traced_world]
      exact ⟨rfl, List.append_assoc _ _ _⟩

theorem Lock_traced_eq (E : Env W C) (m : Mutex C) (w : W) (log : List (Event C))
    (value : String) (w0 : W) (hv : genValue E w = ((value, none), w0)) :
    Lock (traced E) m (w, log) =
      lockLoop (traced E) m value m.tries.toNat 0 (w0, log ++ [Event.rand 32]) := by
  have hg : genValue (traced E) (w, log) = ((value, none), (w0, log ++ [Event.rand 32])) := by
    rw [genValue_traced, hv]
  rw [Lock_of_genValue_ok (traced E) m (w, log) (by rw [hg]), hg]

/-- Counterexample to C14 as stated: the source of randomness fails. With 32 tries `Lock`
makes no attempt at all, and with 0 tries as with 32 it returns the error of the source,
not `ErrFailed`. -/
theorem Lock_without_token_no_attempt :
    defaultLock.tries = 32 ∧
    (Lock (traced redisEnv) defaultLock (noEntropy, [])).1
      = some (Error.rand "entropy source unavailable") ∧
    (Lock (traced redisEnv) defaultLock (noEntropy, [])).2.2.2 = [Event.rand 32] ∧
    noTries.tries = 0 ∧
    (Lock (traced redisEnv) noTries (noEntropy, [])).1
      = some (Error.rand "entropy source unavailable") ∧
    (Lock (traced redisEnv) noTries (noEntropy, [])).1 ≠ some Error.ErrFailed := by
  decide

/-- C14 (amended): let `Lock` have generated its token. Every iteration of its loop sleeps
for `m.delay` first unless it is iteration 0, and does not sleep otherwise. Either no
iteration `k < m.tries` commits or there is a first one that does. If none commits, `Lock`
returns `ErrFailed` after exactly `max m.tries 0` iterations, each followed by its
rollback, and `max (m.tries - 1) 0` sleeps. If iteration `k` is the first that commits,
`Lock` returns nil after the `k` failed iterations and the committing one, with `k` sleeps.
With `m.tries ≤ 0` nothing is called after the token was generated and `ErrFailed` is
returned. -/
theorem bounded_retry (E : Env W C) (m : Mutex C) (w : W) (value : String) (w0 : W)
    (hv : genValue E w = ((value, none), w0)) :
    (∀ (i : Nat) (w1 : W), ∃ body,
      attemptLog E m value i w1 = (if i = 0 then [] else [Event.sleep m.delay]) ++ body ∧
      ∀ e ∈ body, e.isSleep = false) ∧
    ((∀ k : Nat, (k : Int) < m.tries → (attemptAt E m value w0 k).ok = false) ∨
      ∃ k : Nat, (k : Int) < m.tries ∧
        (∀ j, j < k → (attemptAt E m value w0 j).ok = false) ∧
        (attemptAt E m value w0 k).ok = true) ∧
    ((∀ k : Nat, (k : Int) < m.tries → (attemptAt E m value w0 k).ok = false) →
      (Lock (traced E) m (w, [])).1 = some Error.ErrFailed ∧
      (Lock (traced E) m (w, [])).2.2.2 =
        Event.rand 32 :: (failedIterations E m value 0 m.tries.toNat w0).flatten ∧
      ((failedIterations E m value 0 m.tries.toNat w0).length : Int) = max m.tries 0 ∧
      (sleepCount (Lock (traced E) m (w, [])).2.2.2 : Int) = max (m.tries - 1) 0) ∧
    (∀ k : Nat, (k : Int) < m.tries →
      (∀ j, j < k → (attemptAt E m value w0 j).ok = false) →
      (attemptAt E m value w0 k).ok = true →
      (Lock (traced E) m (w, [])).1 = none ∧
      (Lock (traced E) m (w, [])).2.2.2 =
        Event.rand 32 :: ((failedIterations E m value 0 k w0).flatten ++
          attemptLog E m value k (afterFailures E m value 0 k w0)) ∧
      (failedIterations E m value 0 k w0).length = k ∧
      sleepCount (Lock (traced E) m (w, [])).2.2.2 = k) ∧
    (m.tries ≤ 0 →
      (Lock (traced E) m (w, [])).1 = some Error.ErrFailed ∧
      (Lock (traced E) m (w, [])).2.2.2 = [Event.rand 32]) := by
  have hL := Lock_traced_eq E m w [] value w0 hv
  rw [List.nil_append] at hL
  have hlog := lockLoop_traced_log E m value m.tries.toNat 0 w0 [Event.rand 32]
  simp only [Nat.zero_add] at hlog
  have hrand : sleepCount ([Event.rand 32] : List (Event C)) = 0 := rfl
  have hfail : (∀ k : Nat, (k : Int) < m.tries → (attemptAt E m value w0 k).ok = false) →
      (Lock (traced E) m (w, [])).1 = some Error.ErrFailed ∧
      (Lock (traced E) m (w, [])).2.2.2 =
        Event.rand 32 :: (failedIterations E m value 0 m.tries.toNat w0).flatten := by
    intro hall
    rw [hL]
    exact hlog.1 (fun k hk => hall k (by omega))
  refine ⟨?_, ?_, ?_, ?_, ?_⟩
  · intro i w1
    obtain ⟨body, h1, h2⟩ := attemptLog_shape E m value i w1
    exact ⟨body, h1, fun e he => (h2 e he).1⟩
  · rcases lockLoop_spec E m value m.tries.toNat 0 w0 with ⟨hall, _⟩ | ⟨k, hk, hbefore, hok, _⟩
    · left
      intro k hk
      have := hall k (by omega)
      rwa [Nat.zero_add] at this
    · right
      refine ⟨k, by omega, ?_, ?_⟩
      · intro j hj
        have := hbefore j hj
        rwa [Nat.zero_add] at this
      · rwa [Nat.zero_add] at hok
  · intro hall
    obtain ⟨h1, h2⟩ := hfail hall
    refine ⟨h1, h2, ?_, ?_⟩
    · rw [failedIterations_length]
      omega
    · rw [h2, ← List.singleton_append, sleepCount_append, hrand,
        sleepCount_failedIterations, if_pos rfl]
      omega
  · intro k hk hbefore hok
    have := hlog.2 k (by omega) hbefore hok
    rw [← hL] at this
    refine ⟨this.1, this.2, failedIterations_length E m value k 0 w0, ?_⟩
    rw [this.2, sleepCount_append, hrand, sleepCount_append, sleepCount_failedIterations,
      if_pos rfl, sleepCount_attemptLog]
    by_cases hk0 : k = 0
    · simp [hk0]
    · simp [hk0]
      omega
  · intro ht
    obtain ⟨h1, h2⟩ := hfail (fun k hk => absurd hk (by omega))
    refine ⟨h1, ?_⟩
    rw [h2]
    have : m.tries.toNat = 0 := by omega
    rw [this]
    rfl

/-- Witness of C14: two tries against an unreachable instance. -/
theorem bounded_retry_witness :
    genValue redisEnv unreachable =
      (((genValue redisEnv unreachable).1.1, none), (genValue redisEnv unreachable).2) ∧
    (Lock (traced redisEnv) twoTries (unreachable, [])).1 = some Error.ErrFailed ∧
    ((failedIterations redisEnv twoTries (genValue redisEnv unreachable).1.1 0
      twoTries.tries.toNat (genValue redisEnv unreachable).2).length : Int)
        = max twoTries.tries 0 ∧
    (sleepCount (Lock (traced redisEnv) twoTries (unreachable, [])).2.2.2 : Int) =
      max (twoTries.tries - 1) 0 :=
  ⟨by decide,
    ((bounded_retry redisEnv twoTries unreachable (genValue redisEnv unreachable).1.1
      (genValue redisEnv unreachable).2 (by decide)).2.2.1
      (fun k hk => by
        have hk2 : k = 0 ∨ k = 1 := by
          have : (k : Int) < 2 := hk
          omega
        rcases hk2 with rfl | rfl <;> decide)).1,
    ((bounded_retry redisEnv twoTries unreachable (genValue redisEnv unreachable).1.1
      (genValue redisEnv unreachable).2 (by decide)).2.2.1
      (fun k hk => by
        have hk2 : k = 0 ∨ k = 1 := by
          have : (k : Int) < 2 := hk
          omega
        rcases hk2 with rfl | rfl <;> decide)).2.2.1,
    ((bounded_retry redisEnv twoTries unreachable (genValue redisEnv unreachable).1.1
      (genValue redisEnv unreachable).2 (by decide)).2.2.1
      (fun k hk => by
        have hk2 : k = 0 ∨ k = 1 := by
          have : (k : Int) < 2 := hk
          omega
        rcases hk2 with rfl | rfl <;> decide)).2.2.2⟩

theorem genValue_eq_of_ok (E : Env W C) (w : W) (hg : (genValue E w).1.2 = none) :
    genValue E w = (((genValue E w).1.1, none), (genValue E w).2) := by
  refine Prod.ext (Prod.ext rfl ?_) rfl
  exact hg

theorem loopEvent_not_rand (m : Mutex C) (value : String) (e : Event C)
    (h : loopEvent m value e) : e.isRand = false := by
  rcases h with (⟨t, rfl⟩ | rfl | ⟨c, _, rfl⟩) | ⟨c, _, rfl⟩ <;> rfl

theorem loopEvent_cmd (m : Mutex C) (value : String) (c : C) (command : Command)
    (h : loopEvent m value (Event.cmd c command)) :
    c ∈ m.connWrappers ∧
      (command = Command.setNX m.name value (expiryMillis m) ∨
        command = Command.evalDelete m.name value) := by
  rcases h with (⟨t, ht⟩ | hs | ⟨d, hd, he⟩) | ⟨d, hd, he⟩
  · exact absurd ht (by simp)
  · exact absurd hs (by simp)
  · cases he
    exact ⟨hd, Or.inl rfl⟩
  · cases he
    exact ⟨hd, Or.inr rfl⟩

theorem Unlock_traced_log (E : Env W C) (m : Mutex C) (w : W) (log : List (Event C)) :
    (Unlock (traced E) m (w, log)).2.2.2 = log ++ deleteEvents m.name m.value m.connWrappers := by
  unfold Unlock deleteEvents
  rw [fanOut_traced (fun c => release E m c m.value) _
    (fun c => Event.cmd c (Command.evalDelete m.name m.value))
    (fun c w log => release_traced E m m.value c w log)]

theorem Extend_traced_log (E : Env W C) (m : Mutex C) (w : W) (log : List (Event C)) :
    (Extend (traced E) m (w, log)).2.2.2 =
      log ++ touchEvents m.name m.value (expiryMillis m) m.connWrappers := by
  unfold Extend touchEvents
  rw [fanOut_traced (fun c => touch E m c m.value (expiryMillis m)) _
    (fun c => Event.cmd c (Command.evalTouch m.name m.value (expiryMillis m)))
    (fun c w log => touch_traced E m m.value _ c w log)]

/-- C15: when the token cannot be generated, `Lock` returns the error of the source of
randomness, which is not `ErrFailed`; the mutex is handed back as it was, `value` and
`until` included; and the only call made is the one to `rand.Read`: no `SET`, no
compare-and-delete, no sleep. When the token is generated, `rand.Read` is the first call
of `Lock` and is not called again. -/
theorem genValue_failure_stops_Lock (E : Env W C) (m : Mutex C) (w : W) :
    (∀ e, (genValue E w).1.2 = some e →
      (∃ msg, e = Error.rand msg) ∧ e ≠ Error.ErrFailed ∧
      Lock E m w = (some e, m, (genValue E w).2) ∧
      ∀ log, Lock (traced E) m (w, log) =
        (some e, m, ((genValue E w).2, log ++ [Event.rand 32]))) ∧
    ((genValue E w).1.2 = none →
      ∀ log, ∃ evs, (Lock (traced E) m (w, log)).2.2.2 = log ++ Event.rand 32 :: evs ∧
        ∀ e ∈ evs, e.isRand = false) := by
  constructor
  · intro e he
    obtain ⟨msg, hmsg⟩ := genValue_error_is_rand E w e he
    refine ⟨⟨msg, hmsg⟩, ?_, Lock_of_genValue_error E m w e he, ?_⟩
    · rw [hmsg]
      simp
    · intro log
      have hg : (genValue (traced E) (w, log)).1.2 = some e := by
        rw [genValue_traced]
        exact he
      rw [Lock_of_genValue_error (traced E) m (w, log) e hg, genValue_traced]
  · intro hg log
    rw [Lock_traced_eq E m w log _ _ (genValue_eq_of_ok E w hg)]
    obtain ⟨evs, hlog, hevs⟩ := lockLoop_traced_events E m (genValue E w).1.1 m.tries.toNat 0
      (genValue E w).2 (log ++ [Event.rand 32])
    refine ⟨evs, ?_, fun e he => loopEvent_not_rand m _ e (hevs e he)⟩
    rw [hlog, List.append_assoc, List.singleton_append]

/-- Witness of C15: the source of randomness fails. -/
theorem genValue_failure_stops_Lock_witness :
    (genValue redisEnv noEntropy).1.2 = some (Error.rand "entropy source unavailable") ∧
    Lock redisEnv defaultLock noEntropy =
      (some (Error.rand "entropy source unavailable"), defaultLock,
        (genValue redisEnv noEntropy).2) ∧
    ∀ log, Lock (traced redisEnv) defaultLock (noEntropy, log) =
      (some (Error.rand "entropy source unavailable"), defaultLock,
        ((genValue redisEnv noEntropy).2, log ++ [Event.rand 32])) :=
  ⟨by decide,
    ((genValue_failure_stops_Lock redisEnv defaultLock noEntropy).1 _ (by decide)).2.2.1,
    ((genValue_failure_stops_Lock redisEnv defaultLock noEntropy).1 _ (by decide)).2.2.2⟩

/-- C18: in a `Lock` call whose token is `(genValue E w).1.1`, every command sent goes to a
listed instance and is either `SET m.name token NX PX` or the compare-and-delete of
`m.name` under that token. When the call succeeds the stored `value` is that token, so a
following `Unlock` sends the compare-and-delete, and a following `Extend` the
compare-and-reset-expiry, of `m.name` under that token to every listed instance. -/
theorem token_consistency (E : Env W C) (m : Mutex C) (w : W)
    (hg : (genValue E w).1.2 = none) :
    (∀ log, ∃ evs, (Lock (traced E) m (w, log)).2.2.2 = log ++ Event.rand 32 :: evs ∧
      ∀ c command, Event.cmd c command ∈ evs →
        c ∈ m.connWrappers ∧
          (command = Command.setNX m.name (genValue E w).1.1 (expiryMillis m) ∨
            command = Command.evalDelete m.name (genValue E w).1.1)) ∧
    ((Lock E m w).1 = none →
      (Lock E m w).2.1.value = (genValue E w).1.1 ∧
      ∀ (w1 : W) (log : List (Event C)),
        (Unlock (traced E) (Lock E m w).2.1 (w1, log)).2.2.2 =
          log ++ deleteEvents m.name (genValue E w).1.1 m.connWrappers ∧
        (Extend (traced E) (Lock E m w).2.1 (w1, log)).2.2.2 =
          log ++ touchEvents m.name (genValue E w).1.1 (expiryMillis m) m.connWrappers) := by
  constructor
  · intro log
    rw [Lock_traced_eq E m w log _ _ (genValue_eq_of_ok E w hg)]
    obtain ⟨evs, hlog, hevs⟩ := lockLoop_traced_events E m (genValue E w).1.1 m.tries.toNat 0
      (genValue E w).2 (log ++ [Event.rand 32])
    refine ⟨evs, ?_, fun c command he => loopEvent_cmd m _ c command (hevs _ he)⟩
    rw [hlog, List.append_assoc, List.singleton_append]
  · intro hnil
    rw [Lock_of_genValue_ok E m w hg] at hnil ⊢
    rcases lockLoop_mutex E m (genValue E w).1.1 m.tries.toNat 0 (genValue E w).2 with
      ⟨herr, _⟩ | ⟨_, u, hm⟩
    · rw [herr] at hnil
      exact absurd hnil (by simp)
    · rw [hm]
      refine ⟨rfl, fun w1 log => ⟨?_, ?_⟩⟩
      · rw [Unlock_traced_log]
      · rw [Extend_traced_log]
        rfl

/-- Witness of C18: a successful `Lock` on three idle instances. -/
theorem token_consistency_witness :
    (genValue redisEnv threeIdle).1.2 = none ∧
    (Lock redisEnv defaultLock threeIdle).1 = none ∧
    (Lock redisEnv defaultLock threeIdle).2.1.value = (genValue redisEnv threeIdle).1.1 :=
  ⟨by decide, by decide,
    ((token_consistency redisEnv defaultLock threeIdle (by decide)).2 (by decide)).1⟩

/-- Witness of C11: the last `SetExpiry` wins and the tries keep their default. -/
theorem NewMutex_defaults_and_options_witness :
    (NewMutex (New [0, 1, 2]) "lock"
      (([Setter.expiry 1, Setter.driftFactor 0] ++ Setter.expiry 5 ::
        [Setter.retryDelay 7]).map Setter.option)).expiry = 5 ∧
    (NewMutex (New [0, 1, 2]) "lock"
      ([Setter.expiry 1, Setter.driftFactor 0].map Setter.option)).tries = 32 :=
  ⟨((NewMutex_defaults_and_options (New [0, 1, 2]) "lock").2.2.2.2
      [Setter.expiry 1, Setter.driftFactor 0] [Setter.retryDelay 7]).1 5 (by decide),
    ((NewMutex_defaults_and_options (New [0, 1, 2]) "lock").2.2.2.1
      [Setter.expiry 1, Setter.driftFactor 0]).2.1 (by decide)⟩

/-- Witness of C17: the source of randomness fails and the mutex is handed back as it
was. -/
theorem Lock_failure_atomic_witness :
    (Lock redisEnv defaultLock noEntropy).1 ≠ none ∧
    (Lock redisEnv defaultLock noEntropy).2.1 = defaultLock :=
  ⟨by decide, (Lock_failure_atomic redisEnv defaultLock noEntropy).1 (by decide)⟩

end Redlock
